import Mathlib

/-!
Verification of the deep-research-api repository.

The Python source is shallowly embedded:
* Python `str` values are modelled as `List Char` (`PyStr`);
* Python JSON-ish values (the provider response payload) are modelled by the
  inductive `PyVal`; fallible Python expressions return `Except PyErr _`;
* ambient effects (`datetime.now()`, `uuid.uuid4()`) are threaded through an
  explicit `Ambient` record, one draw per run.
Character classes and case mapping are modelled at ASCII precision, matching
the ASCII-range strings the code manipulates.
-/

abbrev PyStr := List Char

/-- Python whitespace class `\s` = `[ \t\n\r\f\v]` (ASCII fragment). -/
def pyIsSpace (c : Char) : Bool :=
  c = ' ' || c = '\t' || c = '\n' || c = '\x0d' || c = '\x0c' || c = '\x0b'

/-- Python `str.split('\n')`: every `'\n'` is a separator, `''.split` is `['']`. -/
def splitLines : PyStr → List PyStr
  | [] => [[]]
  | c :: rest =>
    if c = '\n' then [] :: splitLines rest
    else
      match splitLines rest with
      | [] => [[c]]
      | l :: ls => (c :: l) :: ls

/-- Python `str.split('\n\n')`: leftmost non-overlapping two-newline separators. -/
def splitPars : PyStr → List PyStr
  | [] => [[]]
  | c :: rest =>
    match rest with
    | [] => [[c]]
    | r :: rest2 =>
      if c = '\n' ∧ r = '\n' then [] :: splitPars rest2
      else
        match splitPars (r :: rest2) with
        | [] => [[c]]
        | l :: ls => (c :: l) :: ls

/-- Python `sep.join(pieces)`. -/
def pyJoin (sep : PyStr) : List PyStr → PyStr
  | [] => []
  | [p] => p
  | p :: ps => p ++ sep ++ pyJoin sep ps

/-- Python `str.strip()` (whitespace from both ends). -/
def pyStrip (s : PyStr) : PyStr :=
  ((s.dropWhile pyIsSpace).reverse.dropWhile pyIsSpace).reverse

/-- ASCII `str.upper` on one character (`'a'`–`'z'` is code 97–122). -/
def pyToUpper (c : Char) : Char :=
  if 97 ≤ c.toNat ∧ c.toNat ≤ 122 then Char.ofNat (c.toNat - 32) else c

/-- ASCII `str.lower` on one character (`'A'`–`'Z'` is code 65–90). -/
def pyToLower (c : Char) : Char :=
  if 65 ≤ c.toNat ∧ c.toNat ≤ 90 then Char.ofNat (c.toNat + 32) else c

/-- Python `str.capitalize()`: first character upper-cased, the rest lower-cased. -/
def pyCapitalize : PyStr → PyStr
  | [] => []
  | c :: cs => pyToUpper c :: cs.map pyToLower

/-- One decimal digit, as Python's `str(n)` renders it (argument below 10). -/
def digitChar (d : Nat) : Char :=
  match d with
  | 0 => '0' | 1 => '1' | 2 => '2' | 3 => '3' | 4 => '4'
  | 5 => '5' | 6 => '6' | 7 => '7' | 8 => '8' | _ => '9'

/-- Decimal rendering of a natural number (fuel-indexed so the kernel evaluates it). -/
def natCharsAux : Nat → Nat → PyStr
  | 0, _ => []
  | fuel + 1, n =>
    if n < 10 then [digitChar n]
    else natCharsAux fuel (n / 10) ++ [digitChar (n % 10)]

def natChars (n : Nat) : PyStr := natCharsAux (n + 1) n

/-! ## The `ScientificFormatter` class (`app/api/utils/formatter.py`)

Python strings are `PyStr`; the per-run draws of `uuid.uuid4()` and
`datetime.now()` are explicit arguments. -/

namespace ScientificFormatter

/-- One numbered reference line `[i] url` (without the trailing newline). -/
def citationLine (i : Nat) (url : PyStr) : PyStr :=
  '[' :: natChars i ++ ']' :: ' ' :: url

/-- `ScientificFormatter.format_citations`: empty list gives `""`; otherwise the
entries `"## Referências\n"` and `"[i] url\n"` are joined with `"\n"`. -/
def format_citations (citations : List PyStr) : PyStr :=
  if citations = [] then []
  else
    pyJoin ['\n']
      ("## Referências\n".data ::
        (List.enumFrom 1 citations).map (fun p => citationLine p.1 p.2 ++ ['\n']))

/-- `re.match(r'^(#{1,3})\s+(.*?)$', line)` on a single (newline-free) line,
returning `match.group(2).strip()`: 1–3 leading `#`, then at least one
whitespace character; the title is the stripped remainder (the greedy `\s+`
plus non-greedy `(.*?)$` capture everything after the hashes and the final
`.strip()` removes surrounding whitespace either way). -/
def matchHeader (line : PyStr) : Option PyStr :=
  if 1 ≤ (line.takeWhile (· == '#')).length ∧ (line.takeWhile (· == '#')).length ≤ 3 then
    match line.drop (line.takeWhile (· == '#')).length with
    | c :: _ =>
      if pyIsSpace c then some (pyStrip (line.drop (line.takeWhile (· == '#')).length))
      else none
    | [] => none
  else none

/-- Does `^#{1,3}\s` match at this position (the position is a line start)?
Backtracking over `#{1,3}` succeeds iff the full run of 1–3 leading hashes is
followed by a whitespace character (a shorter hash prefix is followed by `#`,
which is not `\s`). Note `\s` also matches `'\n'`. -/
def headerSigAt (cs : PyStr) : Bool :=
  if 1 ≤ (cs.takeWhile (· == '#')).length ∧ (cs.takeWhile (· == '#')).length ≤ 3 then
    match cs.drop (cs.takeWhile (· == '#')).length with
    | c :: _ => pyIsSpace c
    | [] => false
  else false

/-- `re.search(r'^#{1,3}\s+', content, re.MULTILINE)`: try the pattern at the
start of the text and after every newline (fuel-indexed scan; each step
consumes at least one character, so `cs.length` fuel is enough). -/
def hasSectionsFuel : Nat → PyStr → Bool
  | 0, _ => false
  | _ + 1, [] => false
  | fuel + 1, c :: rest =>
    headerSigAt (c :: rest) ||
      hasSectionsFuel fuel (((c :: rest).dropWhile (fun x => x != '\n')).drop 1)

def hasSections (cs : PyStr) : Bool := hasSectionsFuel cs.length cs

/-! Section maps: Python dicts keyed by section title, in insertion order. -/

abbrev SectionMap := List (PyStr × PyStr)

def dictHasKey (d : SectionMap) (k : PyStr) : Bool := d.any (fun p => p.1 == k)

/-- Python `d[k] = v`: overwrite in place if the key exists, else append. -/
def dictSet (d : SectionMap) (k v : PyStr) : SectionMap :=
  if dictHasKey d k then d.map (fun p => if p.1 == k then (k, v) else p)
  else d ++ [(k, v)]

def dictFind (d : SectionMap) (k : PyStr) : Option PyStr :=
  (d.find? (fun p => p.1 == k)).map Prod.snd

def introKey : PyStr := "Introdução".data

/-- The line loop of `extract_sections`: accumulate body lines, flush them
under the current section title at each heading (and at end of input) — the
flush happens only when at least one line has accumulated. -/
def sectionsLoop : List PyStr → SectionMap → PyStr → List PyStr → SectionMap
  | [], secs, cur, curContent =>
    if curContent = [] then secs
    else dictSet secs cur (pyStrip (pyJoin ['\n'] curContent))
  | line :: rest, secs, cur, curContent =>
    match matchHeader line with
    | some title =>
      sectionsLoop rest
        (if curContent = [] then secs
         else dictSet secs cur (pyStrip (pyJoin ['\n'] curContent)))
        title []
    | none => sectionsLoop rest secs cur (curContent ++ [line])

/-- Post-pass of `extract_sections`: any heading whose body flush never
occurred is inserted with an empty body. -/
def addEmptyHeaders (secs : SectionMap) (headers : List PyStr) : SectionMap :=
  headers.foldl (fun s h => if dictHasKey s h then s else s ++ [(h, [])]) secs

/-- `ScientificFormatter.extract_sections`. -/
def extract_sections (content : PyStr) : SectionMap :=
  if pyStrip content = [] then [(introKey, [])]
  else
    addEmptyHeaders (sectionsLoop (splitLines content) [] introKey [])
      ((splitLines content).filterMap matchHeader)

def nn : PyStr := ['\n', '\n']

def titleLine (query : PyStr) : PyStr := '#' :: ' ' :: pyCapitalize (pyStrip query)

/-- The f-string metadata block (`article_id` is `str(uuid.uuid4())[:8]`,
`date` is `datetime.now().strftime("%d/%m/%Y")`). -/
def metadataBlock (articleId date : PyStr) (ncit : Nat) : PyStr :=
  "\n    **ID do Artigo**: ".data ++ articleId ++
    "  \n    **Data de Publicação**: ".data ++ date ++
    "  \n    **Método**: Análise sistemática baseada em evidências  \n    **Total de Fontes Consultadas**: ".data ++
    natChars ncit ++ "\n    ".data

def conclusionText : PyStr :=
  "Esta análise demonstra a complexidade e importância do tema abordado, fornecendo uma base sólida para futuras investigações científicas.".data

/-- The "Resumo" body of the unstructured branch: the `Introdução` section if
extracted, else the first paragraph (`content.split('\n\n')[0]` when a blank
line exists, the whole content otherwise). -/
def resumoBody (content : PyStr) : PyStr :=
  if dictHasKey (extract_sections content) introKey then
    (dictFind (extract_sections content) introKey).getD []
  else if "\n\n".data <:+: content then (splitPars content).headD []
  else content

/-- `'\n\n'.join([p for p in content.split('\n\n')[1:] if p])`. -/
def mainBody (content : PyStr) : PyStr :=
  pyJoin nn (((splitPars content).drop 1).filter (fun p => !p.isEmpty))

/-- `any(s.lower().startswith('conclus') for s in sections.keys())`. -/
def concluPresent (content : PyStr) : Bool :=
  ((extract_sections content).map Prod.fst).any
    (fun s => List.isPrefixOf "conclus".data (s.map pyToLower))

/-- Everything `add_scientific_structure` emits after the common
`f"{title}\n\n{metadata}\n\n"` prefix and before the citations block.  (Both
source branches start with that prefix — including the two arms of the
source's `content.startswith('#')` test, which build the identical string —
so the prefix is factored out here.) -/
def addSciBody (content : PyStr) : PyStr :=
  if hasSections content then
    if content.headD ' ' = '#' then content ++ nn else content ++ nn
  else
    "## Resumo".data ++ nn ++ resumoBody content ++ nn ++
      "## Introdução".data ++ nn ++ mainBody content ++ nn ++
      (if concluPresent content then []
       else "## Conclusão".data ++ nn ++ conclusionText ++ nn)

/-- `ScientificFormatter.add_scientific_structure`. -/
def add_scientific_structure (content query : PyStr) (citations : List PyStr)
    (articleId date : PyStr) : PyStr :=
  titleLine query ++ nn ++ metadataBlock articleId date citations.length ++ nn ++
    addSciBody content ++ format_citations citations

end ScientificFormatter

/-! ## Python runtime values (the untrusted provider payload)

`format_response` receives an arbitrary JSON-ish `dict`; its accesses can
raise, so they return `Except PyErr _`. -/

inductive PyErr where
  | typeError
  | indexError
  | keyError
  | attributeError
  | valueError
deriving DecidableEq

inductive PyVal where
  | none
  | bool (b : Bool)
  | int (n : Int)
  | str (s : PyStr)
  | list (xs : List PyVal)
  | dict (entries : List (String × PyVal))

abbrev PyDict := List (String × PyVal)

mutual
/-- Structural equality on Python values (Python `==` for these shapes). -/
def PyVal.beq : PyVal → PyVal → Bool
  | .none, .none => true
  | .bool a, .bool b => a == b
  | .int a, .int b => a == b
  | .str a, .str b => a == b
  | .list xs, .list ys => PyVal.beqList xs ys
  | .dict es, .dict fs => PyVal.beqDict es fs
  | _, _ => false

def PyVal.beqList : List PyVal → List PyVal → Bool
  | [], [] => true
  | x :: xs, y :: ys => PyVal.beq x y && PyVal.beqList xs ys
  | _, _ => false

def PyVal.beqDict : List (String × PyVal) → List (String × PyVal) → Bool
  | [], [] => true
  | (k, v) :: ps, (k2, v2) :: qs => k == k2 && PyVal.beq v v2 && PyVal.beqDict ps qs
  | _, _ => false
end

instance : BEq PyVal := ⟨PyVal.beq⟩

/-- Python truthiness. -/
def pyTruthy : PyVal → Bool
  | .none => false
  | .bool b => b
  | .int n => n != 0
  | .str s => !s.isEmpty
  | .list xs => !xs.isEmpty
  | .dict es => !es.isEmpty

def dGet (rd : PyDict) (k : String) : Option PyVal :=
  (rd.find? (fun p => p.1 == k)).map Prod.snd

/-- `rd.get(k, dflt)` on a dict. -/
def dGetD (rd : PyDict) (k : String) (dflt : PyVal) : PyVal := (dGet rd k).getD dflt

/-- `k in rd` on a dict. -/
def dHas (rd : PyDict) (k : String) : Bool := (dGet rd k).isSome

/-- `v.get(k, dflt)` on an arbitrary value: `AttributeError` unless a dict. -/
def pyGetD (v : PyVal) (k : String) (dflt : PyVal) : Except PyErr PyVal :=
  match v with
  | .dict es => .ok (dGetD es k dflt)
  | _ => .error .attributeError

/-- `v[0]`. -/
def pySub0 (v : PyVal) : Except PyErr PyVal :=
  match v with
  | .list [] => .error .indexError
  | .list (x :: _) => .ok x
  | .str [] => .error .indexError
  | .str (c :: _) => .ok (.str [c])
  | .dict _ => .error .keyError
  | _ => .error .typeError

/-- `k in v` for a string key `k`: key lookup on dicts, membership on lists,
substring test on strings, `TypeError` otherwise. -/
def pyContains (v : PyVal) (k : String) : Except PyErr Bool :=
  match v with
  | .dict es => .ok (dHas es k)
  | .list xs => .ok (xs.contains (.str k.data))
  | .str s => .ok (decide (k.data <:+: s))
  | _ => .error .typeError

/-- `len(v)`. -/
def pyLen (v : PyVal) : Except PyErr Nat :=
  match v with
  | .str s => .ok s.length
  | .list xs => .ok xs.length
  | .dict es => .ok es.length
  | _ => .error .typeError

/-- Python `str(int)`. -/
def intChars (n : Int) : PyStr :=
  if n < 0 then '-' :: natChars n.natAbs else natChars n.toNat

mutual
/-- Python `repr`, with string escaping simplified to plain quoting. -/
def pyRepr : PyVal → PyStr
  | .none => "None".data
  | .bool true => "True".data
  | .bool false => "False".data
  | .int n => intChars n
  | .str s => '\'' :: s ++ ['\'']
  | .list xs => '[' :: pyReprList xs ++ [']']
  | .dict es => '\x7b' :: pyReprDict es ++ ['\x7d']

def pyReprList : List PyVal → PyStr
  | [] => []
  | [x] => pyRepr x
  | x :: xs => pyRepr x ++ ", ".data ++ pyReprList xs

def pyReprDict : List (String × PyVal) → PyStr
  | [] => []
  | [p] => '\'' :: p.1.data ++ "': ".data ++ pyRepr p.2
  | p :: ps => '\'' :: p.1.data ++ "': ".data ++ pyRepr p.2 ++ ", ".data ++ pyReprDict ps
end

/-- Python `str(v)` (as used by f-string interpolation). -/
def pyToStr (v : PyVal) : PyStr :=
  match v with
  | .str s => s
  | .list xs => pyRepr (.list xs)
  | .dict es => pyRepr (.dict es)
  | v => pyRepr v

/-- Iteration (`enumerate`, `for ... in`): lists yield elements, strings yield
1-character strings, dicts yield their keys; `TypeError` otherwise. -/
def pyIter (v : PyVal) : Except PyErr (List PyVal) :=
  match v with
  | .list xs => .ok xs
  | .str s => .ok (s.map (fun c => .str [c]))
  | .dict es => .ok (es.map (fun p => .str p.1.data))
  | _ => .error .typeError

/-! ### The inline-citation scanner
`re.findall(r'\[(\d+)\]\s+(http[s]?://[^\s]+)', content)`, keeping the URL
group: non-overlapping left-to-right matches. -/

/-- Try the citation pattern at the current position; on success return the
URL group and the remainder after the whole match. -/
def tryMatchCitation (cs : PyStr) : Option (PyStr × PyStr) :=
  match cs with
  | '[' :: rest =>
    match rest.takeWhile Char.isDigit with
    | [] => Option.none
    | ds =>
      match rest.drop ds.length with
      | ']' :: rest2 =>
        match rest2.takeWhile pyIsSpace with
        | [] => Option.none
        | ws =>
          let rest3 := rest2.drop ws.length
          let scheme : PyStr :=
            if "https://".data.isPrefixOf rest3 then "https://".data
            else if "http://".data.isPrefixOf rest3 then "http://".data
            else []
          if scheme = [] then Option.none
          else
            match (rest3.drop scheme.length).takeWhile (fun c => !pyIsSpace c) with
            | [] => Option.none
            | body =>
              some (scheme ++ body, (rest3.drop scheme.length).drop body.length)
      | _ => Option.none
  | _ => Option.none

/-- Scan the whole text; a successful match consumes at least one character,
so `cs.length` fuel suffices. -/
def scanCitationsFuel : Nat → PyStr → List PyStr
  | 0, _ => []
  | _ + 1, [] => []
  | fuel + 1, c :: rest =>
    match tryMatchCitation (c :: rest) with
    | some (url, rem) => url :: scanCitationsFuel fuel rem
    | Option.none => scanCitationsFuel fuel rest

def scanCitations (s : PyStr) : List PyStr := scanCitationsFuel s.length s

namespace ScientificFormatter

/-- A line consisting solely of 1–3 `#` characters.  At a line start inside a
larger text such a line is followed by `'\n'`, which `\s` matches, so the
`^#{1,3}\s+` search succeeds there even though the line alone has no
whitespace. -/
def hashOnly13 (l : PyStr) : Bool :=
  l.all (· == '#') && decide (1 ≤ l.length) && decide (l.length ≤ 3)

/-- Line-level reading of the `^#{1,3}\s+` MULTILINE search: some line matches
in-line, or some non-final line is a bare 1–3-hash line (its terminating
newline supplies the `\s`).  Proved equal to the positional scan
`hasSections` below. -/
def hasSectionsLB : List PyStr → Bool
  | [] => false
  | [l] => headerSigAt l
  | l :: rest => (headerSigAt l || hashOnly13 l) || hasSectionsLB rest

end ScientificFormatter

namespace ScientificFormatter

/-- Per-run ambient draws: `datetime.now()` (date and ISO timestamp) and the
`uuid.uuid4()` calls. -/
structure Ambient where
  date : PyStr
  articleUuid : PyStr
  ridUuid : PyStr
  timestamp : PyStr

structure DocMeta where
  model : PyVal
  created : PyVal
  formattingTimestamp : PyStr
  error : Option PyErr
  formattingFailed : Bool

/-- The dict `format_response` returns. -/
structure Doc where
  researchId : PyVal
  query : PyStr
  content : PyVal
  rawContent : PyVal
  citations : PyVal
  usage : PyVal
  metadata : DocMeta

/-- `response_data.get("choices", [{}])[0].get("message", {}).get("content", "")`. -/
def extractRaw (rd : PyDict) : Except PyErr PyVal := do
  let e0 ← pySub0 (dGetD rd "choices" (.list [.dict []]))
  let m ← pyGetD e0 "message" (.dict [])
  pyGetD m "content" (.str [])

/-- The `[1] http(s)://…` fallback scan (lines 196–205): its own `try` turns
any error (non-string content) into an empty list. -/
def scanContent (content : PyVal) : PyVal :=
  match content with
  | .str s => .list ((scanCitations s).map PyVal.str)
  | _ => .list []

/-- The third `elif` of citation discovery: `"choices" in rd and
rd.get("choices") and "citations" in rd.get("choices", [{}])[0]`, then the
nested lookup — else the inline scan of the content. -/
def chainChoices (rd : PyDict) (content : PyVal) : Except PyErr PyVal :=
  if dHas rd "choices" && pyTruthy (dGetD rd "choices" .none) then
    match pySub0 (dGetD rd "choices" (.list [.dict []])) with
    | .error e => .error e
    | .ok e0 =>
      match pyContains e0 "citations" with
      | .error e => .error e
      | .ok b =>
        if b then
          match pySub0 (dGetD rd "choices" (.list [.dict []])) with
          | .error e => .error e
          | .ok e1 => pyGetD e1 "citations" (.list [])
        else .ok (scanContent content)
  else .ok (scanContent content)

/-- Citation discovery (formatter.py lines 182–205): top-level `citations`
key when *present* (whatever its value), else the `message`-nested key, else
the first-choice-nested key, else the inline scan. -/
def extractCitations (rd : PyDict) (content : PyVal) : Except PyErr PyVal :=
  if dHas rd "citations" then .ok (dGetD rd "citations" (.list []))
  else if dHas rd "message" then
    match pyContains (dGetD rd "message" (.dict [])) "citations" with
    | .error e => .error e
    | .ok b =>
      if b then pyGetD (dGetD rd "message" (.dict [])) "citations" (.list [])
      else chainChoices rd content
  else chainChoices rd content

/-- `format_citations` applied to a runtime value (duck typing): falsy values
give `""`; iterable values are enumerated with `str()` applied to each
entry; other truthy values raise `TypeError`. -/
def formatCitationsV (v : PyVal) : Except PyErr PyStr :=
  if pyTruthy v = false then .ok []
  else do
    let xs ← pyIter v
    .ok (format_citations (xs.map pyToStr))

/-- `add_scientific_structure` applied to runtime values.  `len(citations)`
is evaluated first (inside the metadata f-string), then `re.search` raises
`TypeError` on a non-string content; a `len`-accepting value is always
iterable here, so the citation formatting itself cannot raise. -/
def addSciV (content citations : PyVal) (query : PyStr) (articleId date : PyStr) :
    Except PyErr PyStr :=
  match pyLen citations with
  | .error e => .error e
  | .ok _ =>
    match content with
    | .str s =>
      match pyIter citations with
      | .error e => .error e
      | .ok xs => .ok (add_scientific_structure s query (xs.map pyToStr) articleId date)
    | _ => .error .typeError

/-- `if "choices" not in response_data or not response_data.get("choices"):
raise ValueError(...)`. -/
def choicesOk (rd : PyDict) : Bool :=
  dHas rd "choices" && pyTruthy (dGetD rd "choices" .none)

/-- Best-effort content extraction of the `except` branch. -/
def salvageContent (rd : PyDict) : Except PyErr PyVal :=
  if choicesOk rd then extractRaw rd else .ok (.str [])

/-- The body of `format_response`'s `try`: a chain of fallible statements,
each propagating the first raised error. -/
def mainPath (rd : PyDict) (query : PyStr) (amb : Ambient) : Except PyErr Doc :=
  if !choicesOk rd then .error .valueError
  else
    match extractRaw rd with
    | .error e => .error e
    | .ok content =>
      match extractCitations rd content with
      | .error e => .error e
      | .ok citations =>
        match addSciV content citations query (amb.articleUuid.take 8) amb.date with
        | .error e => .error e
        | .ok formatted =>
          .ok {
            researchId := dGetD rd "research_id" (.str amb.ridUuid)
            query := query
            content := .str formatted
            rawContent := content
            citations := citations
            usage := dGetD rd "usage" (.dict [])
            metadata := {
              model := dGetD rd "model" (.str [])
              created := dGetD rd "created" (.str [])
              formattingTimestamp := amb.timestamp
              error := Option.none
              formattingFailed := false } }

/-- The `except Exception` branch: degraded-but-valid document — except that
the best-effort extraction itself can re-raise. -/
def exceptPath (rd : PyDict) (query : PyStr) (amb : Ambient) (e : PyErr) :
    Except PyErr Doc :=
  match salvageContent rd with
  | .error e2 => .error e2
  | .ok content =>
    .ok {
      researchId := dGetD rd "research_id" (.str amb.ridUuid)
      query := query
      content := content
      rawContent := content
      citations := dGetD rd "citations" (.list [])
      usage := dGetD rd "usage" (.dict [])
      metadata := {
        model := dGetD rd "model" (.str [])
        created := dGetD rd "created" (.str [])
        formattingTimestamp := amb.timestamp
        error := some e
        formattingFailed := true } }

/-- `ScientificFormatter.format_response`. -/
def format_response (rd : PyDict) (query : PyStr) (amb : Ambient) : Except PyErr Doc :=
  match mainPath rd query amb with
  | .ok d => .ok d
  | .error e => exceptPath rd query amb e

/-- The citation-discovery chain as the spec's words state it (claim C3):
step (1) fires only when the top-level `citations` field is present *and
non-empty*; the later steps follow the nested fields, and the last step scans
the content. -/
def claimCitationChain (rd : PyDict) (content : PyVal) : PyVal :=
  if dHas rd "citations" && pyTruthy (dGetD rd "citations" (.list [])) then
    dGetD rd "citations" (.list [])
  else if dHas rd "message" &&
      (match dGetD rd "message" (.dict []) with
       | .dict m => dHas m "citations"
       | _ => false) then
    match dGetD rd "message" (.dict []) with
    | .dict m => dGetD m "citations" (.list [])
    | _ => .list []
  else if (match dGetD rd "choices" PyVal.none with
       | .list (.dict c0 :: _) => dHas c0 "citations"
       | _ => false) then
    match dGetD rd "choices" PyVal.none with
    | .list (.dict c0 :: _) => dGetD c0 "citations" (.list [])
    | _ => .list []
  else scanContent content

/-- The chain as the code actually behaves (amended C3): identical to
`claimCitationChain` except that step (1) is keyed on *presence alone* — an
empty top-level `citations` list still wins. -/
def amendedCitationChain (rd : PyDict) (content : PyVal) : PyVal :=
  if dHas rd "citations" then dGetD rd "citations" (.list [])
  else if dHas rd "message" &&
      (match dGetD rd "message" (.dict []) with
       | .dict m => dHas m "citations"
       | _ => false) then
    match dGetD rd "message" (.dict []) with
    | .dict m => dGetD m "citations" (.list [])
    | _ => .list []
  else if (match dGetD rd "choices" PyVal.none with
       | .list (.dict c0 :: _) => dHas c0 "citations"
       | _ => false) then
    match dGetD rd "choices" PyVal.none with
    | .list (.dict c0 :: _) => dGetD c0 "citations" (.list [])
    | _ => .list []
  else scanContent content

end ScientificFormatter

/-! ## Settings (`app/config.py`) and the Perplexity client
(`app/api/utils/perplexity.py`, `app/api/models/research.py`)

Float-valued settings are modelled as exact rationals. -/

namespace Settings

def MAX_TOKEN_LIMIT : Nat := 8000
def REQUEST_TIMEOUT_SECONDS : Nat := 2490
def MAX_RETRIES : Nat := 3
def RETRY_BACKOFF_FACTOR : ℚ := 2
def PERPLEXITY_MODEL : PyStr := "sonar-deep-research".data

end Settings

inductive RecencyFilter where
  | day | week | month | year | noFilter

structure Message where
  role : PyStr
  content : PyStr

/-- `PerplexityRequestOptions` with its pydantic defaults. -/
structure PerplexityRequestOptions where
  temperature : ℚ := 1 / 10
  topP : ℚ := 95 / 100
  searchDomainFilter : Option (List PyStr) := Option.none
  searchRecencyFilter : Option RecencyFilter := Option.none
  frequencyPenalty : ℚ := 1
  presencePenalty : ℚ := 0
  webSearchContextSize : PyStr := "high".data

/-- `PerplexityRequestOptions.validate_domain_filter`: the model validator's
body is a lone comment and `return self` — it changes nothing. -/
def validate_domain_filter (o : PerplexityRequestOptions) : PerplexityRequestOptions := o

structure DeepResearchRequest where
  query : PyStr
  systemPrompt : Option PyStr
  options : Option PerplexityRequestOptions

/-- The JSON payload `_prepare_payload` builds; `searchDomainFilter` and
`searchRecencyFilter` are `Option.none` when the key is omitted from the
payload. -/
structure PerplexityPayload where
  model : PyStr
  messages : List Message
  temperature : ℚ
  topP : ℚ
  frequencyPenalty : ℚ
  presencePenalty : ℚ
  maxTokens : Nat
  stream : Bool
  webSearchContextSize : PyStr
  searchDomainFilter : Option (List PyStr)
  searchRecencyFilter : Option RecencyFilter

namespace PerplexityClient

/-- `PerplexityClient._prepare_messages`. -/
def prepare_messages (query : PyStr) (systemPrompt : Option PyStr) : List Message :=
  (match systemPrompt with
   | some sp => [⟨"system".data, sp⟩]
   | Option.none => []) ++ [⟨"user".data, query⟩]

/-- `PerplexityClient._prepare_payload`.  The two optional filters are added
only if truthy: `None` and the empty list are omitted; a recency-filter enum
member is a non-empty string, hence always truthy. -/
def prepare_payload (req : DeepResearchRequest) : PerplexityPayload :=
  let options := req.options.getD {}
  { model := Settings.PERPLEXITY_MODEL
    messages := prepare_messages req.query req.systemPrompt
    temperature := options.temperature
    topP := options.topP
    frequencyPenalty := options.frequencyPenalty
    presencePenalty := options.presencePenalty
    maxTokens := Settings.MAX_TOKEN_LIMIT
    stream := false
    webSearchContextSize := options.webSearchContextSize
    searchDomainFilter :=
      match options.searchDomainFilter with
      | some (d :: ds) => some (d :: ds)
      | _ => Option.none
    searchRecencyFilter := options.searchRecencyFilter }

/-- Outcome of one HTTP POST to the provider. -/
inductive AttemptOutcome where
  | success (body : PyDict)
  | transportError
  | timeout
  | httpStatus (code : Nat)

/-- Exceptions as `execute_research` and its decorator see them. -/
inductive ExecException where
  | httpxRequestError
  | asyncioTimeout
  | httpStatusError (code : Nat)
  | perplexityApi (statusCode : Option Nat)
deriving DecidableEq

/-- The raw HTTP call (`client.post` + `raise_for_status`). -/
def httpCall (o : AttemptOutcome) : Except ExecException PyDict :=
  match o with
  | .success body => .ok body
  | .transportError => .error .httpxRequestError
  | .timeout => .error .asyncioTimeout
  | .httpStatus code => .error (.httpStatusError code)

/-- Python `d[k] = v` on a string-keyed dict. -/
def dSet (rd : PyDict) (k : String) (v : PyVal) : PyDict :=
  if dHas rd k then rd.map (fun p => if p.1 == k then (k, v) else p)
  else rd ++ [(k, v)]

/-- The undecorated body of `execute_research`: the `except` clauses convert
every exception — including the transport errors the decorator is configured
to retry — into `PerplexityApiException`. -/
def execute_research_body (o : AttemptOutcome) (rid : PyStr) : Except ExecException PyDict :=
  match httpCall o with
  | .ok body => .ok (dSet body "research_id" (.str rid))
  | .error (.httpStatusError code) => .error (.perplexityApi (some code))
  | .error .httpxRequestError => .error (.perplexityApi Option.none)
  | .error .asyncioTimeout => .error (.perplexityApi Option.none)
  | .error _ => .error (.perplexityApi Option.none)

/-- `retry_if_exception_type((httpx.RequestError, asyncio.TimeoutError))`. -/
def retryPredicate (e : ExecException) : Bool :=
  match e with
  | .httpxRequestError => true
  | .asyncioTimeout => true
  | _ => false

/-- The tenacity loop: run the wrapped body; on an exception satisfying the
retry predicate, retry while `stop_after_attempt` allows; otherwise re-raise
at once.  Returns the result and the number of attempts made. -/
def tenacityGo (pred : ExecException → Bool) (body : Nat → Except ExecException PyDict) :
    Nat → Nat → Except ExecException PyDict × Nat
  | fuel, n =>
    match body n with
    | .ok a => (.ok a, n)
    | .error e =>
      match fuel with
      | 0 => (.error e, n)
      | f + 1 => if pred e then tenacityGo pred body f (n + 1) else (.error e, n)

def tenacityCall (stopAfter : Nat) (pred : ExecException → Bool)
    (body : Nat → Except ExecException PyDict) : Except ExecException PyDict × Nat :=
  tenacityGo pred body (stopAfter - 1) 1

/-- The decorated `execute_research`, driven by the outcome of each attempt's
HTTP call. -/
def execute_research (outcomes : Nat → AttemptOutcome) (rid : PyStr) :
    Except ExecException PyDict × Nat :=
  tenacityCall Settings.MAX_RETRIES retryPredicate
    (fun n => execute_research_body (outcomes n) rid)

end PerplexityClient

/-- The line structure of newline-terminated blocks joined with `"\n"`: each
block on its own line, a blank line after each block (so blank separator lines
between blocks and one trailing blank line). -/
def altLinesOf : List PyStr → List PyStr
  | [] => [[]]
  | [b] => [b, []]
  | b :: rest => b :: [] :: altLinesOf rest

/-! # THEOREMS -/

-- Basic sanity checks of the string model.
example : splitLines "a\nb".data = ["a".data, "b".data] := by decide
example : splitLines "".data = [[]] := by decide
example : splitLines "a\n".data = ["a".data, []] := by decide
example : splitPars "a\n\n\nb".data = ["a".data, "\nb".data] := by decide
example : pyStrip "  hi  ".data = "hi".data := by decide
example : pyCapitalize "aBC dEf".data = "Abc def".data := by decide
example : natChars 120 = "120".data := by decide

/-! ### Structural lemmas about line splitting -/

theorem splitLines_ne_nil (s : PyStr) : splitLines s ≠ [] := by
  induction s with
  | nil => simp [splitLines]
  | cons c rest ih =>
    simp only [splitLines]
    split
    · simp
    · split
      · simp
      · simp

/-- Splitting on `'\n'` is a homomorphism across an explicit newline. -/
theorem splitLines_append (a b : PyStr) :
    splitLines (a ++ '\n' :: b) = splitLines a ++ splitLines b := by
  induction a with
  | nil => simp [splitLines]
  | cons c rest ih =>
    simp only [List.cons_append, splitLines, List.append_eq]
    by_cases hc : c = '\n'
    · rw [if_pos hc, if_pos hc, ih]
      simp
    · rw [if_neg hc, if_neg hc, ih]
      cases hrest : splitLines rest with
      | nil => exact absurd hrest (splitLines_ne_nil rest)
      | cons l ls => simp

/-- A newline-free string splits into a single line. -/
theorem splitLines_single (s : PyStr) (h : '\n' ∉ s) : splitLines s = [s] := by
  induction s with
  | nil => rfl
  | cons c rest ih =>
    have hc : c ≠ '\n' := fun hh => h (hh ▸ List.mem_cons_self c rest)
    have hr : '\n' ∉ rest := fun hh => h (List.mem_cons_of_mem c hh)
    simp only [splitLines]
    rw [if_neg hc, ih hr]

/-- Joining the split lines recovers the original string. -/
theorem pyJoin_splitLines (s : PyStr) : pyJoin ['\n'] (splitLines s) = s := by
  induction s with
  | nil => rfl
  | cons c rest ih =>
    simp only [splitLines]
    by_cases hc : c = '\n'
    · rw [if_pos hc]
      cases hrest : splitLines rest with
      | nil => exact absurd hrest (splitLines_ne_nil rest)
      | cons l ls =>
        rw [hrest] at ih
        subst hc
        simp only [pyJoin]
        rw [← ih]
        simp
    · rw [if_neg hc]
      cases hrest : splitLines rest with
      | nil => exact absurd hrest (splitLines_ne_nil rest)
      | cons l ls =>
        rw [hrest] at ih
        cases ls with
        | nil =>
          simp only [pyJoin] at ih ⊢
          rw [ih]
        | cons m ms =>
          simp only [pyJoin] at ih ⊢
          rw [List.cons_append, List.cons_append, ih]

namespace ScientificFormatter

-- Sanity checks of the regex model, including the `\s`-matches-`'\n'` corner.
example : hasSections "## Title\nbody".data = true := by decide
example : hasSections "plain text\nmore".data = false := by decide
example : hasSections "#### four hashes".data = false := by decide
example : hasSections "#nospace".data = false := by decide
example : hasSections " # indented".data = false := by decide
example : hasSections "a\n### b".data = true := by decide
example : hasSections "##\nfoo".data = true := by decide
example : hasSections "##".data = false := by decide
example : matchHeader "##  My Title  ".data = some "My Title".data := by decide
example : matchHeader "##".data = none := by decide
example : matchHeader "#x".data = none := by decide

end ScientificFormatter

namespace ScientificFormatter

-- Sanity checks mirroring `tests/test_formatter.py`.
example :
    extract_sections "## Seção 1\n\n## Seção 2\n\n## Seção 3".data =
      [("Seção 1".data, []), ("Seção 2".data, []), ("Seção 3".data, [])] := by decide
example :
    extract_sections "plain one\n\nplain two".data =
      [(introKey, "plain one\n\nplain two".data)] := by decide
example : extract_sections "".data = [(introKey, [])] := by decide
example :
    extract_sections "# T\n\n## Introdução\nA\n\n## B\nC\n".data =
      [("T".data, []), ("Introdução".data, "A".data), ("B".data, "C".data)] := by
  decide

end ScientificFormatter


/-! ### Character and digit facts -/

theorem char_eq_of_toNat {a b : Char} (h : a.toNat = b.toNat) : a = b := by
  apply Char.ext
  exact UInt32.toNat.inj h

theorem pyToLower_not_upper (c : Char) :
    ¬(65 ≤ (pyToLower c).toNat ∧ (pyToLower c).toNat ≤ 90) := by
  unfold pyToLower
  by_cases h : 65 ≤ c.toNat ∧ c.toNat ≤ 90
  · rw [if_pos h]
    have hv : (c.toNat + 32).isValidChar := by
      left
      have := h.2
      omega
    rw [Char.ofNat, dif_pos hv]
    have : (Char.ofNatAux (c.toNat + 32) hv).toNat = c.toNat + 32 := rfl
    rw [this]
    omega
  · rw [if_neg h]
    exact h

theorem pyToLower_ne_of_upper (c d : Char) (hd : 65 ≤ d.toNat ∧ d.toNat ≤ 90) :
    pyToLower c ≠ d := by
  intro h
  exact pyToLower_not_upper c (h ▸ hd)

theorem digitChar_mem (d : Nat) :
    digitChar d ∈ ['0', '1', '2', '3', '4', '5', '6', '7', '8', '9'] := by
  unfold digitChar
  split <;> decide

theorem natCharsAux_digit (f n : Nat) (c : Char) (h : c ∈ natCharsAux f n) :
    c ∈ ['0', '1', '2', '3', '4', '5', '6', '7', '8', '9'] := by
  induction f generalizing n with
  | zero => simp [natCharsAux] at h
  | succ f ih =>
    simp only [natCharsAux] at h
    split at h
    · rw [List.mem_singleton] at h
      exact h ▸ digitChar_mem n
    · rw [List.mem_append] at h
      rcases h with h | h
      · exact ih _ h
      · rw [List.mem_singleton] at h
        exact h ▸ digitChar_mem (n % 10)

theorem natChars_digit (n : Nat) (c : Char) (h : c ∈ natChars n) :
    c ∈ ['0', '1', '2', '3', '4', '5', '6', '7', '8', '9'] :=
  natCharsAux_digit _ _ _ h

theorem natChars_no_newline (n : Nat) : '\n' ∉ natChars n := by
  intro h
  have := natChars_digit n _ h
  simp at this

/-! ### Joined newline-terminated blocks -/

theorem pyJoin_cons_of_ne (sep : PyStr) (p : PyStr) (ps : List PyStr) (h : ps ≠ []) :
    pyJoin sep (p :: ps) = p ++ sep ++ pyJoin sep ps := by
  cases ps with
  | nil => exact absurd rfl h
  | cons q qs => rfl

theorem splitLines_joinBlocks (bodies : List PyStr) (hb : ∀ b ∈ bodies, '\n' ∉ b) :
    splitLines (pyJoin ['\n'] (bodies.map (fun b => b ++ ['\n']))) = altLinesOf bodies := by
  induction bodies with
  | nil => rfl
  | cons b rest ih =>
    cases rest with
    | nil =>
      have hbnl : '\n' ∉ b := hb b (List.mem_cons_self _ _)
      show splitLines (b ++ ['\n']) = [b, []]
      rw [show b ++ ['\n'] = b ++ '\n' :: [] from rfl, splitLines_append,
        splitLines_single b hbnl]
      rfl
    | cons r rs =>
      have hbnl : '\n' ∉ b := hb b (List.mem_cons_self _ _)
      have hrest : ∀ x ∈ r :: rs, '\n' ∉ x := fun x hx => hb x (List.mem_cons_of_mem _ hx)
      rw [List.map_cons, pyJoin_cons_of_ne _ _ _ (by simp)]
      rw [show (b ++ ['\n']) ++ ['\n'] ++ pyJoin ['\n'] ((r :: rs).map (fun x => x ++ ['\n'])) =
        b ++ '\n' :: ('\n' :: pyJoin ['\n'] ((r :: rs).map (fun x => x ++ ['\n']))) from by simp]
      rw [splitLines_append, splitLines_single b hbnl]
      have hsplit : splitLines ('\n' :: pyJoin ['\n'] ((r :: rs).map (fun x => x ++ ['\n']))) =
          [] :: splitLines (pyJoin ['\n'] ((r :: rs).map (fun x => x ++ ['\n']))) := by
        simp [splitLines]
      rw [hsplit, ih hrest]
      rfl

namespace ScientificFormatter

theorem citationLine_no_newline (i : Nat) (u : PyStr) (hu : '\n' ∉ u) :
    '\n' ∉ citationLine i u := by
  unfold citationLine
  intro h
  simp only [List.mem_cons, List.mem_append] at h
  rcases h with (h | h) | h | h | h
  · exact absurd h (by decide)
  · exact absurd (natChars_digit _ _ h) (by decide)
  · exact absurd h (by decide)
  · exact absurd h (by decide)
  · exact hu h

/-- C9: `format_citations` on the empty list returns the empty string (no
heading emitted); on a non-empty list of (newline-free) URLs it returns a text
whose lines are the `"## Referências"` heading followed by one numbered line
`[i] url` per citation in 1-based input order (with blank lines in between),
so `"[1] u1"` appears before `"[2] u2"`. -/
theorem C9_format_citations :
    format_citations [] = [] ∧
    ∀ citations : List PyStr, citations ≠ [] → (∀ u ∈ citations, '\n' ∉ u) →
      splitLines (format_citations citations) =
        altLinesOf ("## Referências".data ::
          (List.enumFrom 1 citations).map (fun p => citationLine p.1 p.2)) := by
  constructor
  · rfl
  · intro citations hne hnl
    unfold format_citations
    rw [if_neg hne]
    have hmap : (List.enumFrom 1 citations).map (fun p => citationLine p.1 p.2 ++ ['\n']) =
        ((List.enumFrom 1 citations).map (fun p => citationLine p.1 p.2)).map
          (fun b => b ++ ['\n']) := by
      rw [List.map_map]
      rfl
    have hhead : ("## Referências\n".data : PyStr) = "## Referências".data ++ ['\n'] := by decide
    rw [hmap, hhead]
    rw [show ("## Referências".data ++ ['\n']) ::
        ((List.enumFrom 1 citations).map (fun p => citationLine p.1 p.2)).map
          (fun b => b ++ ['\n']) =
        ("## Referências".data ::
          (List.enumFrom 1 citations).map (fun p => citationLine p.1 p.2)).map
          (fun b => b ++ ['\n']) from rfl]
    apply splitLines_joinBlocks
    intro b hbmem
    rcases List.mem_cons.mp hbmem with h | h
    · subst h; decide
    · rw [List.mem_map] at h
      obtain ⟨p, hp, hline⟩ := h
      subst hline
      have hsnd : p.2 ∈ citations := by
        have hm := List.mem_map_of_mem Prod.snd hp
        rwa [List.enumFrom_map_snd] at hm
      exact citationLine_no_newline p.1 p.2 (hnl p.2 hsnd)

end ScientificFormatter

/-! ### Case-mapping and strip facts -/

theorem char_ofNat_toNat {n : Nat} (h : n < 55296) : (Char.ofNat n).toNat = n := by
  have hv : n.isValidChar := Or.inl h
  rw [Char.ofNat, dif_pos hv]
  rfl

theorem pyToUpper_eq_newline {c : Char} (h : pyToUpper c = '\n') : c = '\n' := by
  unfold pyToUpper at h
  split at h
  · rename_i hc
    have := char_ofNat_toNat (n := c.toNat - 32) (by omega)
    rw [h] at this
    have h10 : ('\n' : Char).toNat = 10 := by decide
    omega
  · exact h

theorem pyToLower_eq_newline {c : Char} (h : pyToLower c = '\n') : c = '\n' := by
  unfold pyToLower at h
  split at h
  · rename_i hc
    have := char_ofNat_toNat (n := c.toNat + 32) (by omega)
    rw [h] at this
    have h10 : ('\n' : Char).toNat = 10 := by decide
    omega
  · exact h

theorem mem_of_mem_pyStrip {c : Char} {s : PyStr} (h : c ∈ pyStrip s) : c ∈ s := by
  unfold pyStrip at h
  rw [List.mem_reverse] at h
  have h2 := (List.dropWhile_sublist pyIsSpace).mem h
  rw [List.mem_reverse] at h2
  exact (List.dropWhile_sublist pyIsSpace).mem h2

theorem pyCapitalize_no_newline {s : PyStr} (h : '\n' ∉ s) : '\n' ∉ pyCapitalize s := by
  cases s with
  | nil => simp [pyCapitalize]
  | cons c cs =>
    intro hmem
    rcases List.mem_cons.mp hmem with h1 | h1
    · exact h (by rw [pyToUpper_eq_newline h1.symm]; exact List.mem_cons_self _ _)
    · rw [List.mem_map] at h1
      obtain ⟨x, hx, hlx⟩ := h1
      exact h (List.mem_cons_of_mem _ (pyToLower_eq_newline hlx ▸ hx))

namespace ScientificFormatter

theorem titleLine_no_newline {query : PyStr} (hq : '\n' ∉ query) :
    '\n' ∉ titleLine query := by
  unfold titleLine
  intro hmem
  rcases List.mem_cons.mp hmem with h1 | h1
  · exact absurd h1 (by decide)
  · rcases List.mem_cons.mp h1 with h2 | h2
    · exact absurd h2 (by decide)
    · exact pyCapitalize_no_newline (fun hc => hq (mem_of_mem_pyStrip hc)) h2

/-- Every branch of `add_scientific_structure` starts with the generated title
followed by a newline. -/
theorem addSci_starts_title (content query : PyStr) (citations : List PyStr)
    (articleId date : PyStr) :
    ∃ R, add_scientific_structure content query citations articleId date =
      titleLine query ++ '\n' :: R := by
  refine ⟨'\n' :: (metadataBlock articleId date citations.length ++
    (nn ++ (addSciBody content ++ format_citations citations))), ?_⟩
  simp only [add_scientific_structure, List.append_assoc]
  rfl

/-- C10: for a newline-free query, the title line (the first line) of the
restructured document is `"# "` followed by the query stripped of surrounding
whitespace with its first character upper-cased and every later character
lower-cased; in particular no upper-case ASCII letter (so no acronym capital
and no mid-query capital) survives past the first character. -/
theorem C10_title_line (content query : PyStr) (citations : List PyStr)
    (articleId date : PyStr) (hq : '\n' ∉ query) :
    (splitLines (add_scientific_structure content query citations articleId date)).headD []
      = '#' :: ' ' ::
        (match pyStrip query with
         | [] => []
         | c :: cs => pyToUpper c :: cs.map pyToLower) ∧
    ∀ c ∈ (pyCapitalize (pyStrip query)).drop 1, ¬(65 ≤ c.toNat ∧ c.toNat ≤ 90) := by
  constructor
  · obtain ⟨R, hR⟩ := addSci_starts_title content query citations articleId date
    rw [hR, splitLines_append, splitLines_single _ (titleLine_no_newline hq)]
    show titleLine query = _
    unfold titleLine pyCapitalize
    cases pyStrip query <;> rfl
  · intro c hc
    cases hs : pyStrip query with
    | nil => rw [hs] at hc; simp [pyCapitalize] at hc
    | cons d ds =>
      rw [hs] at hc
      simp only [pyCapitalize, List.drop_succ_cons, List.drop_zero] at hc
      rw [List.mem_map] at hc
      obtain ⟨x, _, hlx⟩ := hc
      exact hlx ▸ pyToLower_not_upper x

/-- Witness for C10 at a concrete acronym-containing query. -/
theorem C10_title_line_witness :
    ('\n' ∉ "AI IN Medicine".data) ∧
    (splitLines (add_scientific_structure "body text".data "AI IN Medicine".data []
        "aabbccdd".data "07/05/2025".data)).headD [] = "# Ai in medicine".data := by
  refine ⟨by decide, ?_⟩
  rw [(C10_title_line "body text".data "AI IN Medicine".data [] "aabbccdd".data
    "07/05/2025".data (by decide)).1]
  decide

end ScientificFormatter

/-! ### Relating the positional `^#{1,3}\s+` scan to lines -/

theorem takeWhile_append_all {p : Char → Bool} {l : PyStr} (z : PyStr)
    (h : l.all p = true) : List.takeWhile p (l ++ z) = l ++ List.takeWhile p z := by
  induction l with
  | nil => rfl
  | cons c rest ih =>
    rw [List.all_cons, Bool.and_eq_true] at h
    simp [List.takeWhile_cons, h.1, ih h.2]

theorem takeWhile_append_not_all {p : Char → Bool} {l : PyStr} (z : PyStr)
    (h : l.all p = false) :
    List.takeWhile p (l ++ z) = List.takeWhile p l ∧
      (List.takeWhile p l).length < l.length := by
  induction l with
  | nil => simp at h
  | cons c rest ih =>
    rw [List.all_cons, Bool.and_eq_false_iff] at h
    by_cases hc : p c
    · have hrest : rest.all p = false := by
        rcases h with h | h
        · rw [hc] at h; cases h
        · exact h
      obtain ⟨ih1, ih2⟩ := ih hrest
      constructor
      · simp [List.takeWhile_cons, hc, ih1]
      · simp only [List.takeWhile_cons, hc, if_true, List.length_cons]
        omega
    · constructor
      · simp [List.takeWhile_cons, hc]
      · simp [List.takeWhile_cons, hc]

theorem all_hash_eq_replicate {l : PyStr} (h : l.all (· == '#') = true) :
    l = List.replicate l.length '#' := by
  induction l with
  | nil => rfl
  | cons c rest ih =>
    rw [List.all_cons, Bool.and_eq_true] at h
    have hc : c = '#' := by
      have := h.1
      simpa using this
    rw [List.length_cons, List.replicate_succ, hc]
    exact congrArg (List.cons '#') (ih h.2)

namespace ScientificFormatter

theorem pyIsSpace_ne_hash {c : Char} (h : pyIsSpace c = true) : (c == '#') = false := by
  unfold pyIsSpace at h
  simp only [Bool.or_eq_true, decide_eq_true_eq] at h
  rcases h with ((((h | h) | h) | h) | h) | h <;> (subst h; decide)

/-- At a line boundary, `^#{1,3}\s` matches iff the line matches in-line or is
a bare 1–3-hash line (the newline plays the role of `\s`). -/
theorem headerSigAt_append_newline (l r : PyStr) :
    headerSigAt (l ++ '\n' :: r) = (headerSigAt l || hashOnly13 l) := by
  by_cases hall : l.all (· == '#') = true
  · have htw : List.takeWhile (· == '#') (l ++ '\n' :: r) = l := by
      rw [takeWhile_append_all _ hall]
      simp [List.takeWhile_cons]
    have htwl : List.takeWhile (· == '#') l = l := by
      have := takeWhile_append_all (p := (· == '#')) [] hall
      simpa using this
    unfold headerSigAt hashOnly13
    rw [htw, htwl]
    by_cases hk : 1 ≤ l.length ∧ l.length ≤ 3
    · rw [if_pos hk, if_pos hk, List.drop_left]
      have : l.drop l.length = [] := by simp
      rw [this]
      simp [hall, hk.1, hk.2, pyIsSpace]
    · rw [if_neg hk, if_neg hk]
      rw [Decidable.not_and_iff_or_not] at hk
      simp only [hall, Bool.true_and]
      rcases hk with hk | hk <;> simp [decide_eq_true_eq, hk]
  · have hall' : l.all (· == '#') = false := by
      cases h : l.all (· == '#')
      · rfl
      · exact absurd h hall
    obtain ⟨htw, hlt⟩ := takeWhile_append_not_all ('\n' :: r) hall'
    unfold headerSigAt hashOnly13
    rw [htw]
    have hdrop : (l ++ '\n' :: r).drop (List.takeWhile (· == '#') l).length =
        l.drop (List.takeWhile (· == '#') l).length ++ '\n' :: r := by
      exact List.drop_append_of_le_length (Nat.le_of_lt hlt)
    rw [hdrop]
    have hne : l.drop (List.takeWhile (· == '#') l).length ≠ [] := by
      intro hnil
      have := congrArg List.length hnil
      rw [List.length_drop] at this
      simp at this
      omega
    cases hd : l.drop (List.takeWhile (· == '#') l).length with
    | nil => exact absurd hd hne
    | cons d ds =>
      simp only [List.cons_append, hall', Bool.false_and, Bool.and_false, Bool.or_false]

theorem matchHeader_isSome (l : PyStr) : (matchHeader l).isSome = headerSigAt l := by
  unfold matchHeader headerSigAt
  split
  · cases hd : l.drop (List.takeWhile (· == '#') l).length with
    | nil => rfl
    | cons d ds =>
      by_cases hsp : pyIsSpace d
      · simp [hsp]
      · simp [hsp]
  · rfl

theorem hasSectionsFuel_nil (fuel : Nat) : hasSectionsFuel fuel [] = false := by
  cases fuel <;> rfl

theorem hasSectionsFuel_eq_LB (fuel : Nat) :
    ∀ cs : PyStr, cs.length ≤ fuel → hasSectionsFuel fuel cs = hasSectionsLB (splitLines cs) := by
  induction fuel with
  | zero =>
    intro cs hlen
    have : cs = [] := List.length_eq_zero.mp (Nat.le_zero.mp hlen)
    subst this
    rfl
  | succ fuel ih =>
    intro cs hlen
    cases cs with
    | nil => rfl
    | cons c rest =>
      have hnl : '\n' ∉ (c :: rest).takeWhile (fun x => x != '\n') := by
        intro hmem
        have := List.mem_takeWhile_imp hmem
        simp at this
      show (headerSigAt (c :: rest) ||
        hasSectionsFuel fuel (((c :: rest).dropWhile (fun x => x != '\n')).drop 1)) = _
      cases hdw : (c :: rest).dropWhile (fun x => x != '\n') with
      | nil =>
        -- no newline in the text: a single line
        have hcs : c :: rest = (c :: rest).takeWhile (fun x => x != '\n') := by
          conv_lhs => rw [← List.takeWhile_append_dropWhile (fun x => x != '\n') (c :: rest)]
          rw [hdw, List.append_nil]
        have hone : splitLines (c :: rest) = [c :: rest] := by
          apply splitLines_single
          intro hmem
          rw [hcs] at hmem
          exact hnl hmem
        rw [hone, List.drop_nil, hasSectionsFuel_nil]
        simp [hasSectionsLB]
      | cons d rest2 =>
        have hd : d = '\n' := by
          have := List.head_dropWhile_not (fun x => x != '\n') (l := c :: rest)
          rw [hdw] at this
          simpa using this
        subst hd
        obtain ⟨t, htnl, hcs⟩ : ∃ t, '\n' ∉ t ∧ c :: rest = t ++ '\n' :: rest2 := by
          refine ⟨(c :: rest).takeWhile (fun x => x != '\n'), hnl, ?_⟩
          conv_lhs => rw [← List.takeWhile_append_dropWhile (fun x => x != '\n') (c :: rest)]
          rw [hdw]
        have hlines : splitLines (c :: rest) = t :: splitLines rest2 := by
          rw [hcs, splitLines_append, splitLines_single t htnl]
          rfl
        have hlen2 : rest2.length ≤ fuel := by
          have hthis := congrArg List.length hcs
          simp only [List.length_cons, List.length_append] at hthis hlen
          omega
        rw [hlines, List.drop_one, List.tail_cons, ih rest2 hlen2]
        have hsig : headerSigAt (c :: rest) = (headerSigAt t || hashOnly13 t) := by
          rw [hcs]
          exact headerSigAt_append_newline t rest2
        rw [hsig]
        cases hls : splitLines rest2 with
        | nil => exact absurd hls (splitLines_ne_nil rest2)
        | cons m ms =>
          simp [hasSectionsLB, Bool.or_assoc]

theorem hasSections_eq_LB (cs : PyStr) : hasSections cs = hasSectionsLB (splitLines cs) :=
  hasSectionsFuel_eq_LB cs.length cs (Nat.le_refl _)

end ScientificFormatter

namespace ScientificFormatter

theorem LB_of_mem_header :
    ∀ (lines : List PyStr) (l : PyStr), l ∈ lines → headerSigAt l = true →
      hasSectionsLB lines = true := by
  intro lines
  induction lines with
  | nil => intro l h; simp at h
  | cons a rest ih =>
    intro l hmem hsig
    cases rest with
    | nil =>
      rcases List.mem_cons.mp hmem with h | h
      · subst h
        exact hsig
      · simp at h
    | cons b bs =>
      show ((headerSigAt a || hashOnly13 a) || hasSectionsLB (b :: bs)) = true
      rcases List.mem_cons.mp hmem with h | h
      · subst h
        rw [hsig]
        rfl
      · rw [ih l h hsig]
        simp

theorem LB_false_no_header :
    ∀ (lines : List PyStr), hasSectionsLB lines = false →
      ∀ l ∈ lines, headerSigAt l = false := by
  intro lines
  induction lines with
  | nil => intro _ l h; simp at h
  | cons a rest ih =>
    intro hLB l hmem
    cases rest with
    | nil =>
      rcases List.mem_cons.mp hmem with h | h
      · subst h; exact hLB
      · simp at h
    | cons b bs =>
      have hLB' : ((headerSigAt a || hashOnly13 a) || hasSectionsLB (b :: bs)) = false := hLB
      simp only [Bool.or_eq_false_iff] at hLB'
      rcases List.mem_cons.mp hmem with h | h
      · subst h; exact hLB'.1.1
      · exact ih hLB'.2 l h

theorem hasSections_of_headerLine {cs l : PyStr} (hmem : l ∈ splitLines cs)
    (hsig : headerSigAt l = true) : hasSections cs = true := by
  rw [hasSections_eq_LB]
  exact LB_of_mem_header _ _ hmem hsig

theorem no_headerLine_of_hasSections_false {cs : PyStr} (h : hasSections cs = false) :
    ∀ l ∈ splitLines cs, headerSigAt l = false := by
  rw [hasSections_eq_LB] at h
  exact LB_false_no_header _ h

theorem matchHeader_none_of_hasSections_false {cs : PyStr} (h : hasSections cs = false) :
    ∀ l ∈ splitLines cs, matchHeader l = none := by
  intro l hl
  have := matchHeader_isSome l
  rw [no_headerLine_of_hasSections_false h l hl] at this
  exact Option.not_isSome_iff_eq_none.mp (by rw [this]; exact Bool.false_ne_true)

/-- C7: if the content already contains a level 1–3 markdown heading line, the
restructured output is exactly the generated title and metadata block followed
by the content passed through verbatim (and the citations block); in
particular every line of the content — so every original heading line — is a
line of the output. -/
theorem C7_heading_preservation (content query : PyStr) (citations : List PyStr)
    (articleId date : PyStr)
    (hhead : ∃ l ∈ splitLines content, (matchHeader l).isSome) :
    add_scientific_structure content query citations articleId date =
      titleLine query ++ nn ++ metadataBlock articleId date citations.length ++ nn ++
        content ++ nn ++ format_citations citations ∧
    ∀ l ∈ splitLines content,
      l ∈ splitLines (add_scientific_structure content query citations articleId date) := by
  obtain ⟨l, hl, hsome⟩ := hhead
  have hsig : headerSigAt l = true := by rw [← matchHeader_isSome]; exact hsome
  have hhs : hasSections content = true := hasSections_of_headerLine hl hsig
  have hbody : addSciBody content = content ++ nn := by
    unfold addSciBody
    rw [hhs]
    simp
  have h1 : add_scientific_structure content query citations articleId date =
      titleLine query ++ nn ++ metadataBlock articleId date citations.length ++ nn ++
        content ++ nn ++ format_citations citations := by
    unfold add_scientific_structure
    rw [hbody]
    simp only [List.append_assoc]
  refine ⟨h1, ?_⟩
  intro m hm
  have hshape : add_scientific_structure content query citations articleId date =
      (titleLine query ++ nn ++ metadataBlock articleId date citations.length ++ ['\n']) ++
        '\n' :: (content ++ '\n' :: ('\n' :: format_citations citations)) := by
    rw [h1]
    simp only [nn, List.append_assoc, List.cons_append, List.singleton_append, List.nil_append]
  rw [hshape,
    splitLines_append (titleLine query ++ nn ++ metadataBlock articleId date citations.length
      ++ ['\n']) (content ++ '\n' :: ('\n' :: format_citations citations)),
    splitLines_append content ('\n' :: format_citations citations)]
  exact List.mem_append_right _ (List.mem_append_left _ hm)

/-- Witness for C7 at concrete structured content. -/
theorem C7_heading_preservation_witness :
    "## Intro".data ∈
      splitLines (add_scientific_structure "## Intro\nbody".data "q".data
        ["https://a.org".data] "aabbccdd".data "07/05/2025".data) := by
  exact (C7_heading_preservation "## Intro\nbody".data "q".data ["https://a.org".data]
    "aabbccdd".data "07/05/2025".data ⟨"## Intro".data, by decide, by decide⟩).2
    "## Intro".data (by decide)

end ScientificFormatter

namespace ScientificFormatter

/-! ### Dictionary and section-loop invariants -/

theorem dictHasKey_iff (d : SectionMap) (k : PyStr) :
    dictHasKey d k = true ↔ k ∈ d.map Prod.fst := by
  unfold dictHasKey
  rw [List.any_eq_true]
  constructor
  · rintro ⟨p, hp, hpk⟩
    have : p.1 = k := by simpa using hpk
    exact this ▸ List.mem_map_of_mem Prod.fst hp
  · intro hk
    rw [List.mem_map] at hk
    obtain ⟨p, hp, hpk⟩ := hk
    exact ⟨p, hp, by simp [hpk]⟩

theorem keys_dictSet (d : SectionMap) (k v : PyStr) :
    (dictSet d k v).map Prod.fst =
      if dictHasKey d k then d.map Prod.fst else d.map Prod.fst ++ [k] := by
  unfold dictSet
  by_cases h : dictHasKey d k = true
  · rw [if_pos h, if_pos h, List.map_map]
    apply List.map_congr_left
    intro p _
    by_cases hpk : p.1 = k
    · simp [hpk]
    · simp [hpk]
  · rw [if_neg h, if_neg h]
    simp

theorem mem_keys_dictSet_self (d : SectionMap) (k v : PyStr) :
    k ∈ (dictSet d k v).map Prod.fst := by
  rw [keys_dictSet]
  by_cases h : dictHasKey d k = true
  · rw [if_pos h]
    exact (dictHasKey_iff d k).mp h
  · rw [if_neg h]
    simp

theorem mem_keys_dictSet_mono (d : SectionMap) (k v k' : PyStr)
    (h : k' ∈ d.map Prod.fst) : k' ∈ (dictSet d k v).map Prod.fst := by
  rw [keys_dictSet]
  by_cases hh : dictHasKey d k = true
  · rw [if_pos hh]; exact h
  · rw [if_neg hh]; exact List.mem_append_left _ h

theorem nodup_keys_dictSet (d : SectionMap) (k v : PyStr)
    (h : (d.map Prod.fst).Nodup) : ((dictSet d k v).map Prod.fst).Nodup := by
  rw [keys_dictSet]
  by_cases hh : dictHasKey d k = true
  · rw [if_pos hh]; exact h
  · rw [if_neg hh]
    rw [List.nodup_append]
    refine ⟨h, List.nodup_singleton k, ?_⟩
    intro a ha hb
    rw [List.mem_singleton] at hb
    subst hb
    exact absurd ((dictHasKey_iff d a).mpr ha) hh

theorem mem_keys_addEmptyHeaders_mono (headers : List PyStr) :
    ∀ (secs : SectionMap) (k : PyStr), k ∈ secs.map Prod.fst →
      k ∈ (addEmptyHeaders secs headers).map Prod.fst := by
  induction headers with
  | nil => intro secs k h; exact h
  | cons a rest ih =>
    intro secs k h
    show k ∈ ((rest.foldl _ (if dictHasKey secs a then secs else secs ++ [(a, [])]))).map Prod.fst
    by_cases ha : dictHasKey secs a = true
    · rw [if_pos ha]
      exact ih secs k h
    · rw [if_neg ha]
      exact ih _ k (by rw [List.map_append]; exact List.mem_append_left _ h)

theorem mem_keys_addEmptyHeaders (headers : List PyStr) :
    ∀ (secs : SectionMap) (h : PyStr), h ∈ headers →
      h ∈ (addEmptyHeaders secs headers).map Prod.fst := by
  induction headers with
  | nil => intro secs h hmem; simp at hmem
  | cons a rest ih =>
    intro secs h hmem
    show h ∈ ((rest.foldl _ (if dictHasKey secs a then secs else secs ++ [(a, [])]))).map Prod.fst
    rcases List.mem_cons.mp hmem with heq | hmem'
    · subst heq
      by_cases ha : dictHasKey secs h = true
      · rw [if_pos ha]
        exact mem_keys_addEmptyHeaders_mono rest secs h ((dictHasKey_iff secs h).mp ha)
      · rw [if_neg ha]
        exact mem_keys_addEmptyHeaders_mono rest _ h
          (by rw [List.map_append]; exact List.mem_append_right _ (by simp))
    · by_cases ha : dictHasKey secs a = true
      · rw [if_pos ha]; exact ih secs h hmem'
      · rw [if_neg ha]; exact ih _ h hmem'

theorem nodup_keys_addEmptyHeaders (headers : List PyStr) :
    ∀ (secs : SectionMap), (secs.map Prod.fst).Nodup →
      ((addEmptyHeaders secs headers).map Prod.fst).Nodup := by
  induction headers with
  | nil => intro secs h; exact h
  | cons a rest ih =>
    intro secs h
    show ((rest.foldl _ (if dictHasKey secs a then secs else secs ++ [(a, [])])).map Prod.fst).Nodup
    by_cases ha : dictHasKey secs a = true
    · rw [if_pos ha]; exact ih secs h
    · rw [if_neg ha]
      apply ih
      rw [List.map_append, List.nodup_append]
      refine ⟨h, by simp, ?_⟩
      intro x hx hb
      simp only [List.map_cons, List.map_nil, List.mem_singleton] at hb
      subst hb
      exact absurd ((dictHasKey_iff secs x).mpr hx) ha

theorem mem_keys_sectionsLoop_mono (lines : List PyStr) :
    ∀ (secs : SectionMap) (cur : PyStr) (cc : List PyStr) (k : PyStr),
      k ∈ secs.map Prod.fst → k ∈ (sectionsLoop lines secs cur cc).map Prod.fst := by
  induction lines with
  | nil =>
    intro secs cur cc k h
    show k ∈ (if cc = [] then secs else dictSet secs cur _).map Prod.fst
    by_cases hcc : cc = []
    · rw [if_pos hcc]; exact h
    · rw [if_neg hcc]; exact mem_keys_dictSet_mono _ _ _ _ h
  | cons line rest ih =>
    intro secs cur cc k h
    show k ∈ (match matchHeader line with
      | some title => sectionsLoop rest
          (if cc = [] then secs else dictSet secs cur (pyStrip (pyJoin ['\n'] cc))) title []
      | none => sectionsLoop rest secs cur (cc ++ [line])).map Prod.fst
    cases hmh : matchHeader line with
    | some title =>
      apply ih
      by_cases hcc : cc = []
      · rw [if_pos hcc]; exact h
      · rw [if_neg hcc]; exact mem_keys_dictSet_mono _ _ _ _ h
    | none => exact ih secs cur (cc ++ [line]) k h

theorem mem_keys_sectionsLoop_cur (lines : List PyStr) :
    ∀ (secs : SectionMap) (cur : PyStr) (cc : List PyStr), cc ≠ [] →
      cur ∈ (sectionsLoop lines secs cur cc).map Prod.fst := by
  induction lines with
  | nil =>
    intro secs cur cc hcc
    show cur ∈ (if cc = [] then secs else dictSet secs cur _).map Prod.fst
    rw [if_neg hcc]
    exact mem_keys_dictSet_self _ _ _
  | cons line rest ih =>
    intro secs cur cc hcc
    show cur ∈ (match matchHeader line with
      | some title => sectionsLoop rest
          (if cc = [] then secs else dictSet secs cur (pyStrip (pyJoin ['\n'] cc))) title []
      | none => sectionsLoop rest secs cur (cc ++ [line])).map Prod.fst
    cases hmh : matchHeader line with
    | some title =>
      apply mem_keys_sectionsLoop_mono
      rw [if_neg hcc]
      exact mem_keys_dictSet_self _ _ _
    | none => exact ih secs cur (cc ++ [line]) (by simp)

theorem nodup_keys_sectionsLoop (lines : List PyStr) :
    ∀ (secs : SectionMap) (cur : PyStr) (cc : List PyStr),
      (secs.map Prod.fst).Nodup → ((sectionsLoop lines secs cur cc).map Prod.fst).Nodup := by
  induction lines with
  | nil =>
    intro secs cur cc h
    show ((if cc = [] then secs else dictSet secs cur _).map Prod.fst).Nodup
    by_cases hcc : cc = []
    · rw [if_pos hcc]; exact h
    · rw [if_neg hcc]; exact nodup_keys_dictSet _ _ _ h
  | cons line rest ih =>
    intro secs cur cc h
    show ((match matchHeader line with
      | some title => sectionsLoop rest
          (if cc = [] then secs else dictSet secs cur (pyStrip (pyJoin ['\n'] cc))) title []
      | none => sectionsLoop rest secs cur (cc ++ [line])).map Prod.fst).Nodup
    cases hmh : matchHeader line with
    | some title =>
      apply ih
      by_cases hcc : cc = []
      · rw [if_pos hcc]; exact h
      · rw [if_neg hcc]; exact nodup_keys_dictSet _ _ _ h
    | none => exact ih secs cur (cc ++ [line]) h

end ScientificFormatter

namespace ScientificFormatter

/-- When no line is a heading, the whole content accumulates under the
synthetic `Introdução` section. -/
theorem sectionsLoop_no_header (lines : List PyStr) :
    ∀ (secs : SectionMap) (cur : PyStr) (cc : List PyStr),
      (∀ l ∈ lines, matchHeader l = none) →
      sectionsLoop lines secs cur cc =
        (if cc ++ lines = [] then secs
         else dictSet secs cur (pyStrip (pyJoin ['\n'] (cc ++ lines)))) := by
  induction lines with
  | nil =>
    intro secs cur cc _
    rw [List.append_nil]
    rfl
  | cons line rest ih =>
    intro secs cur cc hnone
    have hline : matchHeader line = none := hnone line (List.mem_cons_self _ _)
    show (match matchHeader line with
      | some title => sectionsLoop rest
          (if cc = [] then secs else dictSet secs cur (pyStrip (pyJoin ['\n'] cc))) title []
      | none => sectionsLoop rest secs cur (cc ++ [line])) = _
    rw [hline]
    rw [ih secs cur (cc ++ [line]) (fun l hl => hnone l (List.mem_cons_of_mem _ hl))]
    rw [List.append_assoc, List.singleton_append]

theorem extract_sections_no_header {content : PyStr}
    (hnone : ∀ l ∈ splitLines content, matchHeader l = none) :
    extract_sections content = [(introKey, pyStrip content)] := by
  unfold extract_sections
  by_cases hblank : pyStrip content = []
  · rw [if_pos hblank, hblank]
  · rw [if_neg hblank]
    have hfm : (splitLines content).filterMap matchHeader = [] := by
      rw [List.filterMap_eq_nil_iff]
      exact hnone
    rw [hfm]
    show sectionsLoop (splitLines content) [] introKey [] = _
    rw [sectionsLoop_no_header (splitLines content) [] introKey [] hnone]
    rw [List.nil_append]
    rw [if_neg (splitLines_ne_nil content)]
    rw [pyJoin_splitLines]
    rfl

theorem mem_of_mem_splitLines {c : Char} {s : PyStr} :
    ∀ {l : PyStr}, l ∈ splitLines s → c ∈ l → c ∈ s := by
  induction s with
  | nil =>
    intro l hl hc
    simp only [splitLines, List.mem_singleton] at hl
    subst hl
    simp at hc
  | cons a rest ih =>
    intro l hl hc
    simp only [splitLines] at hl
    by_cases ha : a = '\n'
    · rw [if_pos ha] at hl
      rcases List.mem_cons.mp hl with h1 | h1
      · subst h1; simp at hc
      · exact List.mem_cons_of_mem _ (ih h1 hc)
    · rw [if_neg ha] at hl
      cases hrest : splitLines rest with
      | nil => exact absurd hrest (splitLines_ne_nil rest)
      | cons m ms =>
        rw [hrest] at hl
        rcases List.mem_cons.mp hl with h1 | h1
        · subst h1
          rcases List.mem_cons.mp hc with h2 | h2
          · subst h2; exact List.mem_cons_self _ _
          · exact List.mem_cons_of_mem _
              (ih (by rw [hrest]; exact List.mem_cons_self _ _) h2)
        · exact List.mem_cons_of_mem _
            (ih (by rw [hrest]; exact List.mem_cons_of_mem _ h1) hc)

theorem pyStrip_nil_all_space {s : PyStr} (h : pyStrip s = []) :
    ∀ c ∈ s, pyIsSpace c = true := by
  unfold pyStrip at h
  have h1 : (s.dropWhile pyIsSpace).reverse.dropWhile pyIsSpace = [] := by
    have := congrArg List.reverse h
    simpa using this
  have h2 : ∀ c ∈ (s.dropWhile pyIsSpace).reverse, pyIsSpace c = true :=
    List.dropWhile_eq_nil_iff.mp h1
  intro c hc
  rcases List.mem_append.mp
      ((List.takeWhile_append_dropWhile pyIsSpace s) ▸ hc) with h3 | h3
  · exact List.mem_takeWhile_imp h3
  · exact h2 c (List.mem_reverse.mpr h3)

theorem headerSig_has_hash {l : PyStr} (h : headerSigAt l = true) : '#' ∈ l := by
  unfold headerSigAt at h
  split at h
  · rename_i hk
    cases htw : List.takeWhile (· == '#') l with
    | nil =>
      rw [htw] at hk
      simp at hk
    | cons a as =>
      have ha : a ∈ List.takeWhile (· == '#') l := by rw [htw]; simp
      have haeq : a = '#' := by simpa using List.mem_takeWhile_imp ha
      exact haeq ▸ (List.takeWhile_sublist _).mem ha
  · cases h

/-- Whitespace-only content has no heading line. -/
theorem no_heading_of_blank {content : PyStr} (hblank : pyStrip content = []) :
    ∀ l ∈ splitLines content, matchHeader l = none := by
  intro l hl
  cases hm : matchHeader l with
  | none => rfl
  | some t =>
    exfalso
    have hsig : headerSigAt l = true := by
      rw [← matchHeader_isSome, hm]
      rfl
    have hhash : '#' ∈ content := mem_of_mem_splitLines hl (headerSig_has_hash hsig)
    have := pyStrip_nil_all_space hblank '#' hhash
    simp [pyIsSpace] at this

/-- C6 (amended): every distinct heading title yields exactly one entry (the
keys are duplicate-free and contain every heading title), so the map has at
least as many entries as there are *distinct* heading titles; and when the
first line is not a heading, the synthetic `Introdução` section is present. -/
theorem C6_extract_sections_entries (content : PyStr) :
    (∀ h ∈ (splitLines content).filterMap matchHeader,
      h ∈ (extract_sections content).map Prod.fst) ∧
    ((extract_sections content).map Prod.fst).Nodup ∧
    ((splitLines content).filterMap matchHeader).dedup.length ≤
      (extract_sections content).length ∧
    (matchHeader ((splitLines content).headD []) = none →
      introKey ∈ (extract_sections content).map Prod.fst) := by
  have hmemkeys : ∀ h ∈ (splitLines content).filterMap matchHeader,
      h ∈ (extract_sections content).map Prod.fst := by
    intro h hmem
    by_cases hblank : pyStrip content = []
    · exfalso
      rw [List.filterMap_eq_nil_iff.mpr (no_heading_of_blank hblank)] at hmem
      simp at hmem
    · unfold extract_sections
      rw [if_neg hblank]
      exact mem_keys_addEmptyHeaders _ _ h hmem
  have hnodup : ((extract_sections content).map Prod.fst).Nodup := by
    unfold extract_sections
    by_cases hblank : pyStrip content = []
    · rw [if_pos hblank]; simp
    · rw [if_neg hblank]
      exact nodup_keys_addEmptyHeaders _ _ (nodup_keys_sectionsLoop _ _ _ _ (by simp))
  refine ⟨hmemkeys, hnodup, ?_, ?_⟩
  · have hsub : ((splitLines content).filterMap matchHeader).dedup ⊆
        (extract_sections content).map Prod.fst := by
      intro x hx
      exact hmemkeys x (List.mem_dedup.mp hx)
    have hle := ((List.nodup_dedup _).subperm hsub).length_le
    rw [List.length_map] at hle
    exact hle
  · intro hfirst
    by_cases hblank : pyStrip content = []
    · unfold extract_sections
      rw [if_pos hblank]
      simp
    · unfold extract_sections
      rw [if_neg hblank]
      apply mem_keys_addEmptyHeaders_mono
      cases hsl : splitLines content with
      | nil => exact absurd hsl (splitLines_ne_nil content)
      | cons l0 rest =>
        rw [hsl] at hfirst
        simp only [List.headD_cons] at hfirst
        show introKey ∈ (match matchHeader l0 with
          | some title => sectionsLoop rest
              (if ([] : List PyStr) = [] then ([] : SectionMap)
               else dictSet [] introKey (pyStrip (pyJoin ['\n'] []))) title []
          | none => sectionsLoop rest [] introKey ([] ++ [l0])).map Prod.fst
        rw [hfirst]
        exact mem_keys_sectionsLoop_cur rest [] introKey [l0] (by simp)

/-- Witness for C6 at content with leading prose and one heading. -/
theorem C6_extract_sections_entries_witness :
    "A".data ∈ (extract_sections "intro text\n# A\nbody".data).map Prod.fst ∧
    introKey ∈ (extract_sections "intro text\n# A\nbody".data).map Prod.fst :=
  ⟨(C6_extract_sections_entries "intro text\n# A\nbody".data).1 "A".data (by decide),
   (C6_extract_sections_entries "intro text\n# A\nbody".data).2.2.2 (by decide)⟩

/-- C6 as frozen is false: two heading lines with the same title collapse to a
single map entry, so the map can have fewer entries than there are heading
lines (here 2 heading lines but 1 entry, and the body `x` of the first `# A`
section is lost). -/
theorem C6_counterexample :
    ((splitLines "# A\nx\n# A\ny".data).filterMap matchHeader).length = 2 ∧
    (extract_sections "# A\nx\n# A\ny".data).length = 1 ∧
    ¬((extract_sections "# A\nx\n# A\ny".data).length ≥
      ((splitLines "# A\nx\n# A\ny".data).filterMap matchHeader).length) := by
  refine ⟨by decide, by decide, by decide⟩

end ScientificFormatter

namespace ScientificFormatter

/-! ### C1: `format_response` never fails outward — corrected -/

/-- C1 as frozen is false: the `except` branch re-evaluates the same
best-effort extraction expression that just failed, so a dict payload whose
`choices` value is a truthy non-list (here the integer `1`) raises
`TypeError` out of `format_response` instead of returning a degraded
document. -/
theorem C1_counterexample :
    format_response [("choices", PyVal.int 1)] "q".data
      ⟨"07/05/2025".data, "aabbccddeeff0011".data, "11112222".data, "T0".data⟩ =
      .error .typeError := by
  rfl

/-- C1 (amended): *provided the best-effort raw-content extraction of the
`except` branch succeeds* (it does whenever `choices` is absent, falsy, or a
list of dicts in the usual shape), `format_response` returns a document
rather than raising; and whenever the main pipeline failed internally, the
returned document is the degraded one: its content and raw content are the
best-effort extraction and its metadata carries the error and the
`formatting_failed` flag. -/
theorem C1_format_response_amended (rd : PyDict) (query : PyStr) (amb : Ambient)
    (c : PyVal) (hc : salvageContent rd = .ok c) :
    ∃ d : Doc, format_response rd query amb = .ok d ∧
      ((∃ e, mainPath rd query amb = .error e) →
        d.content = c ∧ d.rawContent = c ∧ d.metadata.formattingFailed = true ∧
          d.metadata.error.isSome = true) := by
  cases hm : mainPath rd query amb with
  | ok d =>
    refine ⟨d, ?_, ?_⟩
    · unfold format_response
      rw [hm]
    · rintro ⟨e, he⟩
      cases he
  | error e =>
    refine ⟨{ researchId := dGetD rd "research_id" (.str amb.ridUuid), query := query,
              content := c, rawContent := c, citations := dGetD rd "citations" (.list []),
              usage := dGetD rd "usage" (.dict []),
              metadata := { model := dGetD rd "model" (.str []),
                            created := dGetD rd "created" (.str []),
                            formattingTimestamp := amb.timestamp,
                            error := some e, formattingFailed := true } }, ?_, ?_⟩
    · unfold format_response
      rw [hm]
      unfold exceptPath
      rw [hc]
    · intro _
      exact ⟨rfl, rfl, rfl, rfl⟩

/-- Witness for the amended C1 at the payload of
`test_format_response_error_handling` (no `choices` key): the degraded
document is returned with the error flag set. -/
theorem C1_format_response_amended_witness :
    ∃ d : Doc,
      format_response [("research_id", PyVal.str "test-error-id".data)] "q".data
        ⟨"07/05/2025".data, "aabbccddeeff0011".data, "11112222".data, "T0".data⟩ = .ok d ∧
      ((∃ e, mainPath [("research_id", PyVal.str "test-error-id".data)] "q".data
        ⟨"07/05/2025".data, "aabbccddeeff0011".data, "11112222".data, "T0".data⟩ = .error e) →
        d.content = .str [] ∧ d.rawContent = .str [] ∧
          d.metadata.formattingFailed = true ∧ d.metadata.error.isSome = true) :=
  C1_format_response_amended [("research_id", PyVal.str "test-error-id".data)] "q".data
    ⟨"07/05/2025".data, "aabbccddeeff0011".data, "11112222".data, "T0".data⟩ (.str []) rfl

end ScientificFormatter

namespace ScientificFormatter

/-! ### C4: the formatter as a pure function of its inputs — corrected -/

/-- Whether `add_scientific_structure` raises on runtime values is decided
before the ambient article id and date are used. -/
theorem addSciV_cases (c k : PyVal) (q : PyStr) :
    (∃ e, ∀ a d, addSciV c k q a d = .error e) ∨
      (∀ a d, ∃ s, addSciV c k q a d = .ok s) := by
  unfold addSciV
  cases hlen : pyLen k with
  | error e => exact Or.inl ⟨e, fun a d => rfl⟩
  | ok n =>
    cases c with
    | str s =>
      cases hit : pyIter k with
      | error e => exact Or.inl ⟨e, fun a d => rfl⟩
      | ok xs => exact Or.inr (fun a d => ⟨_, rfl⟩)
    | none => exact Or.inl ⟨.typeError, fun a d => rfl⟩
    | bool b => exact Or.inl ⟨.typeError, fun a d => rfl⟩
    | int n2 => exact Or.inl ⟨.typeError, fun a d => rfl⟩
    | list xs => exact Or.inl ⟨.typeError, fun a d => rfl⟩
    | dict es => exact Or.inl ⟨.typeError, fun a d => rfl⟩

/-- C4 as frozen is false: two runs of `format_response` on the same payload
and query differ, because each run draws a fresh `uuid.uuid4()` article id
and a fresh `datetime.now()` timestamp (here the two runs differ in the
formatting timestamp alone). -/
theorem C4_counterexample :
    format_response
        [("choices", PyVal.list [PyVal.dict
          [("message", PyVal.dict [("content", PyVal.str "hello".data)])]])]
        "q".data ⟨"07/05/2025".data, "aabbccddeeff0011".data, "11112222".data, "T1".data⟩ ≠
      format_response
        [("choices", PyVal.list [PyVal.dict
          [("message", PyVal.dict [("content", PyVal.str "hello".data)])]])]
        "q".data ⟨"07/05/2025".data, "aabbccddeeff0011".data, "11112222".data, "T2".data⟩ := by
  intro h
  have h2 := congrArg (fun r => match r with
    | Except.ok d => d.metadata.formattingTimestamp
    | Except.error _ => ([] : PyStr)) h
  exact absurd h2 (by decide)

/-- C4 (amended): the formatter is deterministic in its inputs *plus the
ambient draws* (article id, date, fresh uuids, timestamp).  The ambient draws
affect the restructured text only inside the metadata block — the text
before and after it is a function of content, query and citations alone —
and the `query`, `raw_content`, `citations` and `usage` fields of
`format_response`'s result do not depend on the ambient draws at all. -/
theorem C4_determinism_amended :
    (∀ (content query : PyStr) (citations : List PyStr) (a1 d1 a2 d2 : PyStr),
      ∃ pre post,
        add_scientific_structure content query citations a1 d1 =
          pre ++ metadataBlock a1 d1 citations.length ++ post ∧
        add_scientific_structure content query citations a2 d2 =
          pre ++ metadataBlock a2 d2 citations.length ++ post) ∧
    (∀ (rd : PyDict) (query : PyStr) (amb1 amb2 : Ambient),
      (format_response rd query amb1).map
          (fun d => (d.query, d.rawContent, d.citations, d.usage)) =
        (format_response rd query amb2).map
          (fun d => (d.query, d.rawContent, d.citations, d.usage))) := by
  constructor
  · intro content query citations a1 d1 a2 d2
    refine ⟨titleLine query ++ nn,
      nn ++ addSciBody content ++ format_citations citations, ?_, ?_⟩ <;>
      simp only [add_scientific_structure, List.append_assoc]
  · intro rd query amb1 amb2
    by_cases hok : choicesOk rd = true
    · cases hraw : extractRaw rd with
      | error e =>
        unfold format_response mainPath exceptPath
        simp only [hok, hraw, Bool.not_true]
        cases hs : salvageContent rd <;> (simp only [hs]; try rfl)
      | ok content =>
        cases hcit : extractCitations rd content with
        | error e =>
          unfold format_response mainPath exceptPath
          simp only [hok, hraw, hcit, Bool.not_true]
          cases hs : salvageContent rd <;> (simp only [hs]; try rfl)
        | ok cits =>
          rcases addSciV_cases content cits query with ⟨e, he⟩ | hall
          · unfold format_response mainPath exceptPath
            simp only [hok, hraw, hcit, he (amb1.articleUuid.take 8) amb1.date,
              he (amb2.articleUuid.take 8) amb2.date, Bool.not_true]
            cases hs : salvageContent rd <;> (simp only [hs]; try rfl)
          · obtain ⟨s1, hs1⟩ := hall (amb1.articleUuid.take 8) amb1.date
            obtain ⟨s2, hs2⟩ := hall (amb2.articleUuid.take 8) amb2.date
            unfold format_response mainPath
            simp only [hok, hraw, hcit, hs1, hs2, Bool.not_true]
            rfl
    · have hok2 : choicesOk rd = false := by
        cases h : choicesOk rd
        · rfl
        · exact absurd h hok
      unfold format_response mainPath exceptPath
      simp only [hok2, Bool.not_false]
      cases hs : salvageContent rd <;> (simp only [hs]; try rfl)

end ScientificFormatter

namespace ScientificFormatter

/-! ### C3: citation discovery chain — corrected -/

/-- C3 as frozen is false: with a *present but empty* top-level `citations`
field and citations nested in the first choice, the claimed chain moves past
step (1) and finds the nested list, but the code stops at the present key and
returns the empty list. -/
theorem C3_counterexample :
    extractCitations
        [("citations", PyVal.list []),
         ("choices", PyVal.list [PyVal.dict
           [("citations", PyVal.list [PyVal.str "https://a.org/x".data]),
            ("message", PyVal.dict [("content", PyVal.str [])])]])]
        (.str []) = .ok (.list []) ∧
    claimCitationChain
        [("citations", PyVal.list []),
         ("choices", PyVal.list [PyVal.dict
           [("citations", PyVal.list [PyVal.str "https://a.org/x".data]),
            ("message", PyVal.dict [("content", PyVal.str [])])]])]
        (.str []) = .list [PyVal.str "https://a.org/x".data] ∧
    PyVal.list ([] : List PyVal) ≠ PyVal.list [PyVal.str "https://a.org/x".data] := by
  refine ⟨rfl, rfl, ?_⟩
  intro h
  injection h with h2
  exact absurd h2 (by simp)

theorem dGetD_of_dGet {rd : PyDict} {k : String} {v : PyVal} (h : dGet rd k = some v)
    (dflt : PyVal) : dGetD rd k dflt = v := by
  unfold dGetD
  rw [h]
  rfl

theorem dHas_false_dGet {rd : PyDict} {k : String} (h : dHas rd k = false) :
    dGet rd k = Option.none := by
  unfold dHas at h
  exact Option.not_isSome_iff_eq_none.mp (by rw [h]; exact Bool.false_ne_true)

/-- On a payload whose third chain step is well-shaped, `chainChoices`
computes the presence-keyed third step. -/
theorem chainChoices_eq (rd : PyDict) (content : PyVal)
    (hch : ∀ v, dGet rd "choices" = some v → pyTruthy v = true →
      ∃ c0 rest, v = PyVal.list (PyVal.dict c0 :: rest)) :
    chainChoices rd content =
      .ok (if (match dGetD rd "choices" PyVal.none with
             | .list (.dict c0 :: _) => dHas c0 "citations"
             | _ => false) then
        match dGetD rd "choices" PyVal.none with
        | .list (.dict c0 :: _) => dGetD c0 "citations" (.list [])
        | _ => .list []
      else scanContent content) := by
  unfold chainChoices
  cases hv : dGet rd "choices" with
  | none =>
    have h1 : dHas rd "choices" = false := by unfold dHas; rw [hv]; rfl
    have h2 : dGetD rd "choices" PyVal.none = PyVal.none := by unfold dGetD; rw [hv]; rfl
    simp only [h1, h2, Bool.false_and, Bool.false_eq_true, if_false]
  | some v =>
    have h1 : dHas rd "choices" = true := by unfold dHas; rw [hv]; rfl
    have h2 : dGetD rd "choices" PyVal.none = v := dGetD_of_dGet hv PyVal.none
    by_cases htr : pyTruthy v = true
    · obtain ⟨c0, rest, hveq⟩ := hch v hv htr
      subst hveq
      have h2b : dGetD rd "choices" (PyVal.list [PyVal.dict []]) =
          PyVal.list (PyVal.dict c0 :: rest) := dGetD_of_dGet hv _
      simp only [h1, h2, h2b, htr, Bool.and_self, if_true, pySub0, pyContains]
      by_cases hc0 : dHas c0 "citations" = true
      · simp only [hc0, if_true, pyGetD]
      · have hc0' : dHas c0 "citations" = false := by
          cases h : dHas c0 "citations"
          · rfl
          · exact absurd h hc0
        simp only [hc0', Bool.false_eq_true, if_false]
    · have htr' : pyTruthy v = false := by
        cases h : pyTruthy v
        · rfl
        · exact absurd h htr
      simp only [h1, h2, htr', Bool.and_false, Bool.false_eq_true, if_false]
      cases v with
      | list xs =>
        cases xs with
        | nil => rfl
        | cons x xs2 =>
          exfalso
          simp [pyTruthy] at htr'
      | none => rfl
      | bool b => rfl
      | int n => rfl
      | str s => rfl
      | dict es => rfl

/-- C3 (amended): on well-shaped payloads (the `message` field, if present,
is a dict; the `choices` field, if present and truthy, is a list whose head
is a dict), citation discovery follows the ordered fallback chain keyed on
key *presence* — in particular a present-but-empty top-level `citations`
field already stops the chain — ending with the in-order, non-deduplicated
inline scan of the content. -/
theorem C3_citations_amended (rd : PyDict) (content : PyVal)
    (hmsg : ∀ v, dGet rd "message" = some v → ∃ m, v = PyVal.dict m)
    (hch : ∀ v, dGet rd "choices" = some v → pyTruthy v = true →
      ∃ c0 rest, v = PyVal.list (PyVal.dict c0 :: rest)) :
    extractCitations rd content = .ok (amendedCitationChain rd content) := by
  unfold extractCitations amendedCitationChain
  by_cases h1 : dHas rd "citations" = true
  · simp only [h1, if_true]
  · have h1' : dHas rd "citations" = false := by
      cases h : dHas rd "citations"
      · rfl
      · exact absurd h h1
    simp only [h1', Bool.false_eq_true, if_false]
    cases hmv : dGet rd "message" with
    | none =>
      have h2 : dHas rd "message" = false := by unfold dHas; rw [hmv]; rfl
      simp only [h2, Bool.false_and, Bool.false_eq_true, if_false]
      exact chainChoices_eq rd content hch
    | some v =>
      obtain ⟨m, hm⟩ := hmsg v hmv
      subst hm
      have h2 : dHas rd "message" = true := by unfold dHas; rw [hmv]; rfl
      have h3 : dGetD rd "message" (.dict []) = PyVal.dict m := dGetD_of_dGet hmv _
      simp only [h2, h3, Bool.true_and, pyContains]
      by_cases h4 : dHas m "citations" = true
      · simp only [h4, if_true, pyGetD]
      · have h4' : dHas m "citations" = false := by
          cases h : dHas m "citations"
          · rfl
          · exact absurd h h4
        simp only [h4', Bool.false_eq_true, if_false]
        exact chainChoices_eq rd content hch

/-- Witness for the amended C3: top-level citations present. -/
theorem C3_citations_amended_witness :
    extractCitations [("citations", PyVal.list [PyVal.str "https://a.org/x".data])]
        (.str "see [1] https://b.org/y".data) =
      .ok (amendedCitationChain
        [("citations", PyVal.list [PyVal.str "https://a.org/x".data])]
        (.str "see [1] https://b.org/y".data)) :=
  C3_citations_amended _ _
    (by
      intro v hv
      rw [show dGet [("citations", PyVal.list [PyVal.str "https://a.org/x".data])] "message" =
        Option.none from rfl] at hv
      cases hv)
    (by
      intro v hv
      rw [show dGet [("citations", PyVal.list [PyVal.str "https://a.org/x".data])] "choices" =
        Option.none from rfl] at hv
      cases hv)

end ScientificFormatter

namespace PerplexityClient

/-! ### C2: transport-error retry — the decorator never fires -/

/-- C2: the retry machinery itself works — a body that re-raised the raw
transport exception would be retried up to `MAX_RETRIES` attempts — but
`execute_research`'s `except` clause converts exactly those exceptions into
`PerplexityApiException`, which the decorator's predicate rejects, so a
connection failure on every attempt surfaces after exactly **one** attempt,
not after `MAX_RETRIES = 3`. -/
theorem C2_retry_defeated :
    (∀ rid : PyStr, execute_research (fun _ => AttemptOutcome.transportError) rid =
        (.error (.perplexityApi Option.none), 1)) ∧
    (∀ rid : PyStr, execute_research (fun _ => AttemptOutcome.timeout) rid =
        (.error (.perplexityApi Option.none), 1)) ∧
    Settings.MAX_RETRIES = 3 ∧
    retryPredicate (.perplexityApi Option.none) = false ∧
    retryPredicate .httpxRequestError = true ∧
    tenacityCall Settings.MAX_RETRIES retryPredicate (fun _ => .error .httpxRequestError) =
      (.error .httpxRequestError, 3) :=
  ⟨fun _ => rfl, fun _ => rfl, rfl, rfl, rfl, rfl⟩

/-! ### C5: domain allow-list bound — none is enforced -/

/-- C5 as frozen is false: an 11-element domain allow-list (exceeding both
claimed bounds, 3 and 10) is forwarded upstream exactly as given — neither
the validator nor `_prepare_payload` rejects or truncates it. -/
theorem C5_counterexample :
    (prepare_payload
        { query := "why".data, systemPrompt := Option.none,
          options := some { searchDomainFilter := some (
            ["d1.org".data, "d2.org".data, "d3.org".data, "d4.org".data, "d5.org".data,
             "d6.org".data, "d7.org".data, "d8.org".data, "d9.org".data, "d10.org".data,
             "d11.org".data]) } }).searchDomainFilter =
      some ["d1.org".data, "d2.org".data, "d3.org".data, "d4.org".data, "d5.org".data,
        "d6.org".data, "d7.org".data, "d8.org".data, "d9.org".data, "d10.org".data,
        "d11.org".data] ∧
    (["d1.org".data, "d2.org".data, "d3.org".data, "d4.org".data, "d5.org".data,
      "d6.org".data, "d7.org".data, "d8.org".data, "d9.org".data, "d10.org".data,
      "d11.org".data] : List PyStr).length = 11 := by
  exact ⟨rfl, rfl⟩

/-- C5 (amended): no size bound is enforced on the domain allow-list.  The
validator is the identity, a non-empty list of any length is forwarded
unchanged, an absent or empty list omits the field, and every length is
reachable in the outgoing payload. -/
theorem C5_no_bound_amended :
    (∀ o : PerplexityRequestOptions, validate_domain_filter o = o) ∧
    (∀ (req : DeepResearchRequest) (d : PyStr) (ds : List PyStr),
      (req.options.getD {}).searchDomainFilter = some (d :: ds) →
        (prepare_payload req).searchDomainFilter = some (d :: ds)) ∧
    (∀ req : DeepResearchRequest,
      ((req.options.getD {}).searchDomainFilter = Option.none ∨
        (req.options.getD {}).searchDomainFilter = some []) →
        (prepare_payload req).searchDomainFilter = Option.none) ∧
    (∀ n : Nat, ∃ req : DeepResearchRequest,
      ∃ l, (prepare_payload req).searchDomainFilter = some l ∧ l.length = n + 1) := by
  refine ⟨fun o => rfl, ?_, ?_, ?_⟩
  · intro req d ds h
    simp only [prepare_payload, h]
  · intro req h
    rcases h with h | h <;> simp only [prepare_payload, h]
  · intro n
    refine ⟨{ query := "q".data, systemPrompt := Option.none,
              options := some { searchDomainFilter := some (List.replicate (n + 1) "d.org".data) } },
      List.replicate (n + 1) "d.org".data, ?_, by simp⟩
    simp only [prepare_payload, List.replicate_succ, Option.getD]

/-- Witness for the amended C5 at a concrete 4-element list. -/
theorem C5_no_bound_amended_witness :
    (prepare_payload
        { query := "q".data, systemPrompt := Option.none,
          options := some { searchDomainFilter := some (
            ["a.org".data, "b.org".data, "c.org".data, "d.org".data]) } }).searchDomainFilter =
      some ["a.org".data, "b.org".data, "c.org".data, "d.org".data] :=
  C5_no_bound_amended.2.1
    { query := "q".data, systemPrompt := Option.none,
      options := some { searchDomainFilter := some (
        ["a.org".data, "b.org".data, "c.org".data, "d.org".data]) } }
    "a.org".data ["b.org".data, "c.org".data, "d.org".data] rfl

end PerplexityClient

namespace ScientificFormatter

/-! ### C8: the generic Conclusion section — corrected -/

theorem splitPars_ne_nil : ∀ s : PyStr, splitPars s ≠ [] := by
  intro s
  match s with
  | [] => simp [splitPars]
  | [c] => simp [splitPars]
  | c :: r :: rest2 =>
    simp only [splitPars]
    split
    · simp
    · split <;> simp

theorem pyJoin_nn_splitPars (s : PyStr) : pyJoin nn (splitPars s) = s := by
  induction s using splitPars.induct with
  | case1 => rfl
  | case2 c => rfl
  | case3 c r rest2 hcr ih =>
    obtain ⟨hc, hr⟩ := hcr
    subst hc; subst hr
    show pyJoin nn ([] :: splitPars rest2) = _
    rw [pyJoin_cons_of_ne _ _ _ (splitPars_ne_nil rest2), ih]
    rfl
  | case4 c r rest2 hcr hsp ih => exact absurd hsp (splitPars_ne_nil _)
  | case5 c r rest2 hcr q qs hsp ih =>
    have hsps : splitPars (c :: r :: rest2) = (c :: q) :: qs := by
      show (if c = '\n' ∧ r = '\n' then [] :: splitPars rest2
         else match splitPars (r :: rest2) with
           | [] => [[c]]
           | l :: ls => (c :: l) :: ls) = _
      rw [if_neg hcr, hsp]
    rw [hsps]
    rw [hsp] at ih
    cases qs with
    | nil =>
      show c :: q = _
      simp only [pyJoin] at ih
      rw [ih]
    | cons m ms =>
      rw [pyJoin_cons_of_ne _ _ _ (by simp)]
      rw [pyJoin_cons_of_ne _ _ _ (by simp)] at ih
      simp only [List.cons_append, List.append_assoc] at ih ⊢
      rw [ih]

theorem splitLines_newline_cons (b : PyStr) :
    splitLines ('\n' :: b) = [] :: splitLines b := by
  simp [splitLines]

theorem mem_splitLines_pyJoin_nn :
    ∀ (ps : List PyStr) (p : PyStr), p ∈ ps → ∀ l ∈ splitLines p,
      l ∈ splitLines (pyJoin nn ps) := by
  intro ps
  induction ps with
  | nil => intro p hp; simp at hp
  | cons a rest ih =>
    intro p hp l hl
    cases rest with
    | nil =>
      rcases List.mem_cons.mp hp with h | h
      · subst h; exact hl
      · simp at h
    | cons b bs =>
      rw [pyJoin_cons_of_ne _ _ _ (by simp)]
      rw [show a ++ nn ++ pyJoin nn (b :: bs) =
        a ++ '\n' :: ('\n' :: pyJoin nn (b :: bs)) from by simp [nn]]
      rw [splitLines_append, splitLines_newline_cons]
      rcases List.mem_cons.mp hp with h | h
      · subst h; exact List.mem_append_left _ hl
      · exact List.mem_append_right _ (List.mem_cons_of_mem _ (ih p h l hl))

theorem mem_lines_pyJoin_nn_sub :
    ∀ (ps : List PyStr) (l : PyStr), l ∈ splitLines (pyJoin nn ps) →
      l = [] ∨ ∃ p ∈ ps, l ∈ splitLines p := by
  intro ps
  induction ps with
  | nil =>
    intro l hl
    simp [pyJoin, splitLines] at hl
    exact Or.inl hl
  | cons a rest ih =>
    intro l hl
    cases rest with
    | nil =>
      exact Or.inr ⟨a, List.mem_singleton_self a, hl⟩
    | cons b bs =>
      rw [pyJoin_cons_of_ne _ _ _ (by simp),
        show a ++ nn ++ pyJoin nn (b :: bs) =
          a ++ '\n' :: ('\n' :: pyJoin nn (b :: bs)) from by simp [nn],
        splitLines_append, splitLines_newline_cons] at hl
      rcases List.mem_append.mp hl with h | h
      · exact Or.inr ⟨a, List.mem_cons_self _ _, h⟩
      · rcases List.mem_cons.mp h with h | h
        · exact Or.inl h
        · rcases ih l h with h | ⟨p, hp, hlp⟩
          · exact Or.inl h
          · exact Or.inr ⟨p, List.mem_cons_of_mem _ hp, hlp⟩

theorem mem_splitLines_of_mem_splitPars {s p l : PyStr} (hp : p ∈ splitPars s)
    (hl : l ∈ splitLines p) : l ∈ splitLines s := by
  have := mem_splitLines_pyJoin_nn (splitPars s) p hp l hl
  rwa [pyJoin_nn_splitPars] at this

theorem mem_altLinesOf :
    ∀ (bodies : List PyStr) (l : PyStr), l ∈ altLinesOf bodies → l = [] ∨ l ∈ bodies := by
  intro bodies
  induction bodies with
  | nil =>
    intro l h
    simp only [altLinesOf, List.mem_singleton] at h
    exact Or.inl h
  | cons b rest ih =>
    intro l h
    cases rest with
    | nil =>
      simp only [altLinesOf, List.mem_cons, List.mem_singleton, List.not_mem_nil,
        or_false] at h
      rcases h with h | h
      · exact Or.inr (by simp [h])
      · exact Or.inl h
    | cons c cs =>
      have he : altLinesOf (b :: c :: cs) = b :: [] :: altLinesOf (c :: cs) := rfl
      rw [he] at h
      rcases List.mem_cons.mp h with h | h
      · exact Or.inr (h ▸ List.mem_cons_self _ _)
      · rcases List.mem_cons.mp h with h | h
        · exact Or.inl h
        · rcases ih l h with h | h
          · exact Or.inl h
          · exact Or.inr (List.mem_cons_of_mem _ h)

/-- The line decomposition of the f-string metadata block: a leading empty
line, four indented lines (the two interpolation lines carry the article id
and the date), and the trailing four-space line. -/
theorem splitLines_metadataBlock (articleId date : PyStr) (n : Nat)
    (hid : '\n' ∉ articleId) (hdate : '\n' ∉ date) :
    splitLines (metadataBlock articleId date n) =
      [[], "    **ID do Artigo**: ".data ++ articleId ++ "  ".data,
        "    **Data de Publicação**: ".data ++ date ++ "  ".data,
        "    **Método**: Análise sistemática baseada em evidências  ".data,
        "    **Total de Fontes Consultadas**: ".data ++ natChars n,
        "    ".data] := by
  have e1 : ("\n    **ID do Artigo**: ".data : PyStr) =
      '\n' :: "    **ID do Artigo**: ".data := by decide
  have e2 : ("  \n    **Data de Publicação**: ".data : PyStr) =
      "  ".data ++ '\n' :: "    **Data de Publicação**: ".data := by decide
  have e3 : ("  \n    **Método**: Análise sistemática baseada em evidências  \n    **Total de Fontes Consultadas**: ".data : PyStr) =
      "  ".data ++ '\n' :: ("    **Método**: Análise sistemática baseada em evidências  ".data ++
        '\n' :: "    **Total de Fontes Consultadas**: ".data) := by decide
  have e4 : ("\n    ".data : PyStr) = '\n' :: "    ".data := by decide
  have hM : metadataBlock articleId date n =
      '\n' :: (("    **ID do Artigo**: ".data ++ articleId ++ "  ".data) ++ '\n' ::
        (("    **Data de Publicação**: ".data ++ date ++ "  ".data) ++ '\n' ::
          ("    **Método**: Análise sistemática baseada em evidências  ".data ++ '\n' ::
            (("    **Total de Fontes Consultadas**: ".data ++ natChars n) ++ '\n' ::
              "    ".data)))) := by
    unfold metadataBlock
    rw [e1, e2, e3, e4]
    simp [List.append_assoc]
  rw [hM, splitLines_newline_cons, splitLines_append, splitLines_append, splitLines_append,
    splitLines_append]
  rw [splitLines_single ("    **ID do Artigo**: ".data ++ articleId ++ "  ".data) (by
    intro h
    rcases List.mem_append.mp h with h1 | h1
    · rcases List.mem_append.mp h1 with h2 | h2
      · exact absurd h2 (by decide)
      · exact hid h2
    · exact absurd h1 (by decide))]
  rw [splitLines_single ("    **Data de Publicação**: ".data ++ date ++ "  ".data) (by
    intro h
    rcases List.mem_append.mp h with h1 | h1
    · rcases List.mem_append.mp h1 with h2 | h2
      · exact absurd h2 (by decide)
      · exact hdate h2
    · exact absurd h1 (by decide))]
  rw [splitLines_single ("    **Método**: Análise sistemática baseada em evidências  ".data)
    (by decide)]
  rw [splitLines_single ("    **Total de Fontes Consultadas**: ".data ++ natChars n) (by
    intro h
    rcases List.mem_append.mp h with h1 | h1
    · exact absurd h1 (by decide)
    · exact natChars_no_newline n h1)]
  rw [splitLines_single ("    ".data) (by decide)]
  rfl

/-- No line of the metadata block reads `## Conclusão`: each of its lines is
empty or starts with a space. -/
theorem conclusao_not_mem_metadata (articleId date : PyStr) (n : Nat)
    (hid : '\n' ∉ articleId) (hdate : '\n' ∉ date) :
    "## Conclusão".data ∉ splitLines (metadataBlock articleId date n) := by
  rw [splitLines_metadataBlock articleId date n hid hdate]
  intro h
  simp only [List.mem_cons, List.mem_singleton] at h
  rcases h with h | h | h | h | h | h
  · exact absurd h (by decide)
  · simp only [List.cons_append] at h
    have := congrArg (fun l => l.headD ' ') h
    simp only [List.headD_cons] at this
    exact absurd this (by decide)
  · simp only [List.cons_append] at h
    have := congrArg (fun l => l.headD ' ') h
    simp only [List.headD_cons] at this
    exact absurd this (by decide)
  · exact absurd h (by decide)
  · simp only [List.cons_append] at h
    have := congrArg (fun l => l.headD ' ') h
    simp only [List.headD_cons] at this
    exact absurd this (by decide)
  · exact absurd h (by decide)

/-- No line of the citations block reads `## Conclusão`: its lines are the
`## Referências` heading, blank separators, and `[i] url` lines. -/
theorem conclusao_not_mem_citations (citations : List PyStr)
    (hnl : ∀ u ∈ citations, '\n' ∉ u) :
    "## Conclusão".data ∉ splitLines (format_citations citations) := by
  by_cases hne : citations = []
  · subst hne; decide
  · have hlines : splitLines (format_citations citations) =
        altLinesOf ("## Referências".data ::
          (List.enumFrom 1 citations).map (fun p => citationLine p.1 p.2)) := by
      unfold format_citations
      rw [if_neg hne]
      have hmap : (List.enumFrom 1 citations).map (fun p => citationLine p.1 p.2 ++ ['\n']) =
          ((List.enumFrom 1 citations).map (fun p => citationLine p.1 p.2)).map
            (fun b => b ++ ['\n']) := by
        rw [List.map_map]
        rfl
      have hhead : ("## Referências\n".data : PyStr) = "## Referências".data ++ ['\n'] := by
        decide
      rw [hmap, hhead]
      rw [show ("## Referências".data ++ ['\n']) ::
          ((List.enumFrom 1 citations).map (fun p => citationLine p.1 p.2)).map
            (fun b => b ++ ['\n']) =
          ("## Referências".data ::
            (List.enumFrom 1 citations).map (fun p => citationLine p.1 p.2)).map
            (fun b => b ++ ['\n']) from rfl]
      apply splitLines_joinBlocks
      intro b hbmem
      rcases List.mem_cons.mp hbmem with h | h
      · subst h; decide
      · rw [List.mem_map] at h
        obtain ⟨p, hp, hline⟩ := h
        subst hline
        have hsnd : p.2 ∈ citations := by
          have hm := List.mem_map_of_mem Prod.snd hp
          rwa [List.enumFrom_map_snd] at hm
        exact citationLine_no_newline p.1 p.2 (hnl p.2 hsnd)
    rw [hlines]
    intro hT
    rcases mem_altLinesOf _ _ hT with h | h
    · exact absurd h (by decide)
    · rcases List.mem_cons.mp h with h | h
      · exact absurd h (by decide)
      · rw [List.mem_map] at h
        obtain ⟨p, hp, hline⟩ := h
        have hhd := congrArg (fun l => l.headD ' ') hline
        simp only [citationLine, List.cons_append, List.headD_cons] at hhd
        exact absurd hhd (by decide)

/-- No line of `main_content` (the rejoined later paragraphs of the input)
reads `## Conclusão` when the section scan found nothing: such a line would
be a heading line of the input itself. -/
theorem conclusao_not_mem_mainBody (content : PyStr)
    (hns : hasSections content = false) :
    "## Conclusão".data ∉ splitLines (mainBody content) := by
  intro hT
  unfold mainBody at hT
  rcases mem_lines_pyJoin_nn_sub _ _ hT with h | ⟨p, hp, hlp⟩
  · exact absurd h (by decide)
  · have hp2 : p ∈ splitPars content :=
      List.mem_of_mem_drop (List.mem_of_mem_filter hp)
    have hmem : "## Conclusão".data ∈ splitLines content :=
      mem_splitLines_of_mem_splitPars hp2 hlp
    have hhs := hasSections_of_headerLine hmem (by decide)
    rw [hns] at hhs
    exact Bool.false_ne_true hhs

/-- Splitting the assembled output into lines: each `"\n\n"` separator closes
the block before it and contributes one blank line. -/
theorem splitLines_assembled (a1 a2 a3 a4 a5 a6 a7 a8 c : PyStr) :
    splitLines (a1 ++ nn ++ a2 ++ nn ++ (a3 ++ nn ++ a4 ++ nn ++ a5 ++ nn ++ a6 ++ nn ++
      (a7 ++ nn ++ a8 ++ nn)) ++ c) =
      splitLines a1 ++ [[]] ++ splitLines a2 ++ [[]] ++ splitLines a3 ++ [[]] ++
      splitLines a4 ++ [[]] ++ splitLines a5 ++ [[]] ++ splitLines a6 ++ [[]] ++
      splitLines a7 ++ [[]] ++ splitLines a8 ++ [[]] ++ splitLines c := by
  simp only [nn, List.append_assoc, List.cons_append, List.nil_append]
  simp only [splitLines_append, splitLines_newline_cons]

/-- Counting one designated line in the assembled line list: every other
block is known not to contain it. -/
theorem count_assembly (x t1 t2 t3 t4 : PyStr) (ML SL MB CL : List PyStr)
    (h1 : x ≠ t1) (h2 : x ∉ ML) (h3 : x ∉ SL) (h4 : x ∉ MB) (h5 : x ∉ CL)
    (hx : x ≠ []) (hr : x ≠ t2) (hi : x ≠ t3) (hc : x ≠ t4) :
    ([t1] ++ [[]] ++ ML ++ [[]] ++ [t2] ++ [[]] ++ SL ++ [[]] ++ [t3] ++ [[]] ++ MB ++ [[]] ++
      [x] ++ [[]] ++ [t4] ++ [[]] ++ CL).count x = 1 := by
  have e0 : ∀ (y : PyStr), x ≠ y → ([y] : List PyStr).count x = 0 := by
    intro y hy
    rw [List.count_eq_zero]
    simp [hy]
  have eML := List.count_eq_zero.mpr h2
  have eSL := List.count_eq_zero.mpr h3
  have eMB := List.count_eq_zero.mpr h4
  have eCL := List.count_eq_zero.mpr h5
  have eNil : ([[]] : List PyStr).count x = 0 := e0 [] hx
  have eSelf : ([x] : List PyStr).count x = 1 := by simp
  simp only [List.count_append, eML, eSL, eMB, eCL, eNil, eSelf,
    e0 t1 h1, e0 t2 hr, e0 t3 hi, e0 t4 hc]

end ScientificFormatter

namespace ScientificFormatter

/-- C8 as frozen is false at content `"##\nfoo"`: no line of this content is a
level 1–3 markdown heading (so the claim's premise holds) and no extracted
section title starts with `conclu`, yet the restructured output contains zero
`## Conclusão` lines — the code's section test `re.search(r'^#{1,3}\s+', ...,
re.MULTILINE)` fires across the line break (`\s` matches `'\n'`), so the
content is passed through unchanged and no Conclusion section is appended. -/
theorem C8_counterexample :
    (∀ l ∈ splitLines "##\nfoo".data, matchHeader l = none) ∧
    (∀ t ∈ (extract_sections "##\nfoo".data).map Prod.fst,
      List.isPrefixOf "conclu".data (t.map pyToLower) = false) ∧
    (splitLines (add_scientific_structure "##\nfoo".data "q".data []
      "aabbccdd".data "07/05/2025".data)).count "## Conclusão".data = 0 := by
  decide

set_option maxRecDepth 4000 in
/-- C8 (amended): when the code's own section scan finds no match
(`re.search(r'^#{1,3}\s+', content, re.MULTILINE)` is `None`), and the
query, article id, date and citation URLs are newline-free, and the stripped
content does not itself contain a literal `## Conclusão` line, then the
suppression condition never fires (the only extracted section is the synthetic
`Introdução`, whose lowercase form does not start with `conclus`) and the
restructured output contains exactly one `## Conclusão` line. -/
theorem C8_conclusion_amended (content query : PyStr) (citations : List PyStr)
    (articleId date : PyStr)
    (hns : hasSections content = false)
    (hq : '\n' ∉ query) (hid : '\n' ∉ articleId) (hdate : '\n' ∉ date)
    (hcit : ∀ u ∈ citations, '\n' ∉ u)
    (hnc : "## Conclusão".data ∉ splitLines (pyStrip content)) :
    concluPresent content = false ∧
    (splitLines (add_scientific_structure content query citations articleId date)).count
      "## Conclusão".data = 1 := by
  have hnone : ∀ l ∈ splitLines content, matchHeader l = none :=
    matchHeader_none_of_hasSections_false hns
  have hsecs : extract_sections content = [(introKey, pyStrip content)] :=
    extract_sections_no_header hnone
  have hcp : concluPresent content = false := by
    unfold concluPresent
    rw [hsecs]
    show ([introKey].any fun s => List.isPrefixOf "conclus".data (s.map pyToLower)) = false
    decide
  have hres : resumoBody content = pyStrip content := by
    unfold resumoBody
    rw [hsecs]
    simp [dictHasKey, dictFind]
  have hbody : addSciBody content =
      "## Resumo".data ++ nn ++ pyStrip content ++ nn ++ "## Introdução".data ++ nn ++
        mainBody content ++ nn ++ ("## Conclusão".data ++ nn ++ conclusionText ++ nn) := by
    unfold addSciBody
    rw [hns, hcp, hres]
    simp
  have hTitleNe : ("## Conclusão".data : PyStr) ≠ titleLine query := by
    intro h
    have h2 := congrArg (fun l => l.tail.headD ' ') h
    simp only [titleLine, List.tail_cons, List.headD_cons] at h2
    exact absurd h2 (by decide)
  have hQ : splitLines (add_scientific_structure content query citations articleId date) =
      splitLines (titleLine query) ++ [[]] ++
      splitLines (metadataBlock articleId date citations.length) ++ [[]] ++
      splitLines ("## Resumo".data) ++ [[]] ++ splitLines (pyStrip content) ++ [[]] ++
      splitLines ("## Introdução".data) ++ [[]] ++ splitLines (mainBody content) ++ [[]] ++
      splitLines ("## Conclusão".data) ++ [[]] ++ splitLines conclusionText ++ [[]] ++
      splitLines (format_citations citations) := by
    unfold add_scientific_structure
    rw [hbody]
    exact splitLines_assembled (titleLine query)
      (metadataBlock articleId date citations.length) ("## Resumo".data)
      (pyStrip content) ("## Introdução".data) (mainBody content)
      ("## Conclusão".data) conclusionText (format_citations citations)
  rw [splitLines_single (titleLine query) (titleLine_no_newline hq),
    show splitLines ("## Resumo".data) = ["## Resumo".data] from by decide,
    show splitLines ("## Introdução".data) = ["## Introdução".data] from by decide,
    show splitLines ("## Conclusão".data) = ["## Conclusão".data] from by decide,
    show splitLines conclusionText = [conclusionText] from by decide] at hQ
  refine ⟨hcp, ?_⟩
  rw [hQ]
  exact count_assembly "## Conclusão".data (titleLine query) "## Resumo".data
    "## Introdução".data conclusionText
    (splitLines (metadataBlock articleId date citations.length))
    (splitLines (pyStrip content)) (splitLines (mainBody content))
    (splitLines (format_citations citations))
    hTitleNe (conclusao_not_mem_metadata articleId date citations.length hid hdate) hnc
    (conclusao_not_mem_mainBody content hns) (conclusao_not_mem_citations citations hcit)
    (by decide) (by decide) (by decide) (by decide)

/-- Witness for the amended C8 at concrete unstructured content. -/
theorem C8_conclusion_amended_witness :
    concluPresent "hello world".data = false ∧
    (splitLines (add_scientific_structure "hello world".data "q".data
      ["https://a.org".data] "aabbccdd".data "07/05/2025".data)).count
      "## Conclusão".data = 1 :=
  C8_conclusion_amended "hello world".data "q".data ["https://a.org".data]
    "aabbccdd".data "07/05/2025".data (by decide) (by decide) (by decide) (by decide)
    (by decide) (by decide)

end ScientificFormatter
